import Mathlib

/-!
Verification development for the web-scraper crawler engine
(`backend/lambda/webscraper/lambda_function.py`).

The embedding is shallow: each Python function of the crawler is translated
into an executable Lean definition operating on explicit state.  Strings are
manipulated through their underlying character lists with structural
recursion, so that every definition reduces inside the kernel and concrete
runs can be settled by `decide` or `rfl`.
-/

namespace Scraper

/-! ## Character-list string helpers

Python string primitives (`str.strip`, slicing, `in`, `str.replace`,
`str.split`, `str.lower`, `str.startswith`, `str.endswith`) are modelled by
structural functions over `List Char`, repacked into `String` at the edges.
-/

/-- Drop characters satisfying `p` from both ends of a list; models
Python `str.strip(chars)`. -/
def pyStrip (p : Char → Bool) (l : List Char) : List Char :=
  ((l.dropWhile p).reverse.dropWhile p).reverse

/-- Test whether `p` occurs as a leading block of `l`. -/
def hasPfx : List Char → List Char → Bool
  | [], _ => true
  | _ :: _, [] => false
  | a :: as, b :: bs => a == b && hasPfx as bs

/-- Test whether `pat` occurs as a contiguous sub-list of `l`;
models Python `pat in s`. -/
def hasSub (pat : List Char) : List Char → Bool
  | [] => hasPfx pat []
  | c :: cs => hasPfx pat (c :: cs) || hasSub pat cs

/-- String form of `hasSub`: does `pat` occur as a substring of `s`? -/
def strHasSub (s pat : String) : Bool := hasSub pat.data s.data

/-- String form of `hasPfx`: does `s` start with `pat`? -/
def strStarts (s pat : String) : Bool := hasPfx pat.data s.data

/-- Does `s` end with `pat`?  Models Python `str.endswith`. -/
def strEnds (s pat : String) : Bool := hasPfx pat.data.reverse s.data.reverse

/-- Lower-case a string character by character; models Python `str.lower`
for the ASCII range used by the crawler. -/
def strLower (s : String) : String := ⟨s.data.map Char.toLower⟩

/-- Split a character list at every occurrence of the separator character;
models Python `str.split(sep)` for a one-character separator. -/
def splitOnCh (sep : Char) : List Char → List (List Char)
  | [] => [[]]
  | c :: cs =>
    let rest := splitOnCh sep cs
    if c == sep then [] :: rest
    else match rest with
      | [] => [[c]]
      | r :: rs => (c :: r) :: rs

/-- String form of `splitOnCh`. -/
def strSplit (s : String) (sep : Char) : List String :=
  (splitOnCh sep s.data).map String.mk

/-- Join a list of strings with a separator; models the Python join of a
string list with `sep` between elements. -/
def strJoin (sep : String) : List String → String
  | [] => ""
  | [x] => x
  | x :: xs => x ++ sep ++ strJoin sep xs

/-- Replace every non-overlapping occurrence of `pat` (non-empty) in `l` by
`rep`, scanning left to right; models Python `str.replace`. -/
def listReplace (pat rep : List Char) : List Char → List Char
  | [] => []
  | c :: cs =>
    if h : hasPfx pat (c :: cs) ∧ pat ≠ [] then
      rep ++ listReplace pat rep ((c :: cs).drop pat.length)
    else
      c :: listReplace pat rep cs
termination_by l => l.length
decreasing_by
  · simp only [List.length_drop, List.length_cons]
    have hlen : 0 < pat.length := List.length_pos.mpr h.2
    omega
  · simp

/-- String form of `listReplace`; models Python `s.replace(pat, rep)`. -/
def strReplace (s pat rep : String) : String :=
  ⟨listReplace pat.data rep.data s.data⟩

/-! ## Filename sanitization (`WebScraper.sanitize_filename`) -/

/-- The character class of the regex `[<>:"/\\|?*]` in `sanitize_filename`. -/
def bannedChars : List Char := ['<', '>', ':', '"', '/', '\\', '|', '?', '*']

/-- Predicate for characters stripped by Python `strip('. ')`. -/
def isDotSpace (c : Char) : Bool := c == '.' || c == ' '

/-- Embeds `WebScraper.sanitize_filename`: substitute each banned character
with an underscore (`re.sub`), strip leading and trailing dots and spaces
(`str.strip('. ')`), and keep the first 200 characters (`[:200]`). -/
def sanitize_filename (s : String) : String :=
  ⟨(pyStrip isDotSpace (s.data.map fun c => if c ∈ bannedChars then '_' else c)).take 200⟩

/-- The sanitization pipeline exactly as the specification sentence words it:
the banned characters are STRIPPED (removed) from the string, then leading
and trailing dots and spaces are trimmed, then the result is capped at 200
characters.  This definition follows the words of the specification and is
compared against the source-derived `sanitize_filename`. -/
def sanitizeSpecClaimed (s : String) : String :=
  ⟨(pyStrip isDotSpace (s.data.filter fun c => c ∉ bannedChars)).take 200⟩

/-- The sanitization pipeline as amended: each banned character is REPLACED
with an underscore instead of being removed; trimming and capping as before. -/
def sanitizeSpecAmended (s : String) : String :=
  ⟨(pyStrip isDotSpace (s.data.map fun c => if c ∈ bannedChars then '_' else c)).take 200⟩

/-! ## URLs

A URL is modelled as the component record produced by `urllib.parse.urlparse`:
scheme, network location, path, query and fragment.  `Url.toRaw` renders the
record back to the raw string on which the Python code performs its substring
and set-membership checks.
-/

/-- Parsed URL, mirroring the components of `urllib.parse.urlparse` that the
crawler reads (`scheme`, `netloc`, `path`, `query`) plus the fragment. -/
structure Url where
  scheme : String
  netloc : String
  path : String
  query : String
  frag : String
deriving DecidableEq, Repr

/-- Render a parsed URL back to the raw string form the Python code passes
around (`urlunparse` restricted to the five components modelled here). -/
def Url.toRaw (u : Url) : String :=
  (if u.scheme = "" then "" else u.scheme ++ "://") ++ u.netloc ++ u.path
    ++ (if u.query = "" then "" else "?" ++ u.query)
    ++ (if u.frag = "" then "" else "#" ++ u.frag)

/-- Split a list at the first occurrence of `pat`, returning the parts before
and after it, or `none` when `pat` does not occur. -/
def splitFirst (pat : List Char) : List Char → Option (List Char × List Char)
  | [] => if pat.isEmpty then some ([], []) else none
  | c :: cs =>
    if hasPfx pat (c :: cs) then some ([], (c :: cs).drop pat.length)
    else match splitFirst pat cs with
      | some (a, b) => some (c :: a, b)
      | none => none

/-- Take characters until one of the stop characters is reached, returning
the taken part and the remainder. -/
def takeUntilAny (stops : List Char) : List Char → List Char × List Char
  | [] => ([], [])
  | c :: cs =>
    if c ∈ stops then ([], c :: cs)
    else
      let (a, b) := takeUntilAny stops cs
      (c :: a, b)

/-- Split off the fragment (after the first `#`) and the query (after the
first `?` of the pre-fragment part); returns (path, query, fragment). -/
def splitPathQueryFrag (l : List Char) : List Char × List Char × List Char :=
  let (preFrag, frag) := match splitFirst ['#'] l with
    | some (a, b) => (a, b)
    | none => (l, [])
  let (path, query) := match splitFirst ['?'] preFrag with
    | some (a, b) => (a, b)
    | none => (preFrag, [])
  (path, query, frag)

/-- Models `urllib.parse.urlparse` for the URL shapes the crawler handles:
an absolute URL `scheme://netloc/path?query#frag`, or a scheme-less string
treated as path, query and fragment with empty scheme and netloc. -/
def parseUrl (s : String) : Url :=
  match splitFirst [':', '/', '/'] s.data with
  | some (sch, rest) =>
    let (nl, rest2) := takeUntilAny ['/', '?', '#'] rest
    let (path, query, frag) := splitPathQueryFrag rest2
    ⟨⟨sch⟩, ⟨nl⟩, ⟨path⟩, ⟨query⟩, ⟨frag⟩⟩
  | none =>
    let (path, query, frag) := splitPathQueryFrag s.data
    ⟨"", "", ⟨path⟩, ⟨query⟩, ⟨frag⟩⟩

/-- Directory part of a path: everything up to and including the last slash,
or a single slash when the path has none.  Used for relative reference
resolution. -/
def dirOf (p : String) : String :=
  let r := p.data.reverse.dropWhile fun c => !(c == '/')
  if r.isEmpty then "/" else ⟨r.reverse⟩

/-- Models `urllib.parse.urljoin(base, href)` for the reference shapes the
crawler meets: absolute URLs, protocol-relative (`//…`), path-absolute
(`/…`), empty, and plain relative references resolved against the directory
of the base path. -/
def urljoin (base : Url) (href : String) : Url :=
  if strHasSub href "://" then parseUrl href
  else if strStarts href "//" then parseUrl (base.scheme ++ ":" ++ href)
  else if strStarts href "/" then
    let (path, query, frag) := splitPathQueryFrag href.data
    ⟨base.scheme, base.netloc, ⟨path⟩, ⟨query⟩, ⟨frag⟩⟩
  else if href = "" then base
  else
    let (path, query, frag) := splitPathQueryFrag href.data
    ⟨base.scheme, base.netloc, dirOf base.path ++ ⟨path⟩, ⟨query⟩, ⟨frag⟩⟩

/-! ## Scraper configuration (`WebScraper.__init__`) -/

/-- Crawl configuration captured by `WebScraper.__init__`.  The regex-based
`is_feed_or_dynamic_url` check (built-in patterns, caller-supplied patterns
and the complex-query-parameter heuristic) is abstracted as the boolean
predicate `feedOrDynamic` on the raw URL string; `urlHash` abstracts
`get_url_hash`, the first 8 hex digits of the MD5 of its argument; `today`
abstracts the `datetime.now()` date stamp used in metadata. -/
structure ScraperCfg where
  base_url : Url
  s3_bucket : String
  max_workers : Nat
  max_pages : Nat
  excluded_urls : List String
  feedOrDynamic : String → Bool
  urlHash : String → String
  today : String

/-- Models `self.domain = urlparse(base_url).netloc`. -/
def ScraperCfg.domain (cfg : ScraperCfg) : String := cfg.base_url.netloc

/-- The literal substrings whose presence anywhere in the lower-cased URL
excludes it in `is_valid_url`, in source order. -/
def excludedTokens : List String :=
  ["mailto:", "tel:", "javascript:", "#", "void(0)", "data:"]

/-- Embeds `WebScraper.is_valid_url`: reject URLs in the excluded list or
matching the feed/dynamic heuristics, then require an http(s) or empty
scheme, a same-domain or empty netloc, and the absence of every excluded
token as a substring of the lower-cased URL. -/
def is_valid_url (cfg : ScraperCfg) (u : Url) : Bool :=
  let url := u.toRaw
  if url ∈ cfg.excluded_urls then false
  else if cfg.feedOrDynamic url then false
  else
    let domain := cfg.domain
    let bare := strReplace domain "www." ""
    let is_same_domain :=
      u.netloc == domain || u.netloc == "www." ++ domain || u.netloc == bare
        || strEnds u.netloc ("." ++ bare)
    let is_valid_scheme := u.scheme == "http" || u.scheme == "https"
    let is_excluded := excludedTokens.any fun t => strHasSub (strLower url) t
    let is_relative := u.netloc == "" || is_same_domain
    (is_valid_scheme || u.scheme == "") && is_relative && !is_excluded

/-- Embeds `WebScraper.get_domain_prefix`: `main` for a `www.` host,
otherwise the first dot-separated label, or `main` when the host has no
dot. -/
def domainPrefixOf (u : Url) : String :=
  let domain := u.netloc
  if strStarts domain "www." then "main"
  else if strHasSub domain "." then (strSplit domain '.').headD "main"
  else "main"

/-- Embeds `WebScraper.get_s3_filename`: domain prefix joined to the
sanitized filename. -/
def get_s3_filename (u : Url) (filename : String) : String :=
  domainPrefixOf u ++ "_" ++ sanitize_filename filename

/-! ## Metadata (`WebScraper.create_bedrock_metadata`) -/

/-- The `metadataAttributes` record of a sidecar, with `file_size` optional
exactly as the source includes it only when positive. -/
structure Metadata where
  source : String
  file_url : String
  title : String
  document_type : String
  document_category : String
  page_type : String
  file_extension : String
  last_modified : String
  content_type : String
  domain : String
  file_size : Option Nat
deriving DecidableEq, Repr

/-- Embeds `WebScraper.create_bedrock_metadata`. -/
def create_bedrock_metadata (cfg : ScraperCfg) (original_url : Url)
    (filename title content_type : String) (file_size : Nat)
    (source_webpage_url : Option Url) : Metadata :=
  let file_ext :=
    if strHasSub filename "." then strLower ((strSplit filename '.').getLastD "")
    else ""
  let pair :=
    if file_ext == "txt" then ("webpage", "web_content")
    else if file_ext == "pdf" then ("document", "pdf_document")
    else if file_ext == "doc" || file_ext == "docx" then ("document", "word_document")
    else if file_ext == "xls" || file_ext == "xlsx" then ("spreadsheet", "excel_document")
    else if file_ext == "ppt" || file_ext == "pptx" then ("presentation", "powerpoint_document")
    else ("file", "other_document")
  let fl := strLower filename
  let page_type :=
    if strHasSub fl "index" || strStarts fl "home" then "homepage"
    else if strHasSub fl "about" then "about"
    else if strHasSub fl "contact" then "contact"
    else "content"
  { source := (source_webpage_url.getD original_url).toRaw
    file_url := original_url.toRaw
    title := if title == "" then filename else title
    document_type := pair.1
    document_category := pair.2
    page_type := page_type
    file_extension := "." ++ file_ext
    last_modified := cfg.today
    content_type := content_type
    domain := (source_webpage_url.getD original_url).netloc
    file_size := if 0 < file_size then some file_size else none }

/-! ## Content store (S3 bucket) -/

/-- A stored object: either primary content with its content type, or a
parsed metadata sidecar.  A sidecar holding anything other than a
`metadata` value corresponds to bytes that `json.loads` rejects. -/
inductive ObjVal where
  | content (body : String) (contentType : String)
  | metadata (m : Metadata)
deriving DecidableEq, Repr

/-- The bucket contents: an association list from key to object, most
recent write first. -/
abbrev Store := List (String × ObjVal)

/-- Look up a key, seeing the most recent write. -/
def lookupStore : Store → String → Option ObjVal
  | [], _ => none
  | (k, v) :: st, key => if k == key then some v else lookupStore st key

/-- Embeds `WebScraper.s3_file_exists` (a successful `head_object`). -/
def s3_file_exists (st : Store) (k : String) : Bool := (lookupStore st k).isSome

/-- Embeds `WebScraper.upload_to_s3`: `put_object` wrapped in try/except
returning a success flag.  `fail k = true` models an S3 write failure for
key `k`, in which case the store is unchanged and `false` is returned. -/
def upload_to_s3 (fail : String → Bool) (st : Store) (k : String) (v : ObjVal) :
    Store × Bool :=
  if fail k then (st, false) else ((k, v) :: st, true)

/-! ## Dedup oracles -/

/-- Embeds `WebScraper.file_already_exists`: true only when the derived key
and its sidecar both exist and the sidecar decodes to metadata whose
`file_url` or `source` equals the candidate URL string.  A sidecar that does
not decode (the Python `json.loads` raising inside try/except) yields
false. -/
def file_already_exists (u : Url) (filename : String) (st : Store) : Bool :=
  let s3_filename := get_s3_filename u filename
  let metadata_filename := s3_filename ++ ".metadata.json"
  if s3_file_exists st s3_filename && s3_file_exists st metadata_filename then
    match lookupStore st metadata_filename with
    | some (.metadata m) => m.file_url == u.toRaw || m.source == u.toRaw
    | _ => false
  else false

/-- The page filename derivation shared verbatim by
`webpage_already_exists` and `save_webpage`: domain prefix, path segments
joined by underscores (or `index` for an empty path), a query-hash suffix
when a query string is present, sanitized, with a `.txt` extension. -/
def webpageFilename (cfg : ScraperCfg) (u : Url) : String :=
  let path_parts := (strSplit u.path '/').filter (· ≠ "")
  let dp := domainPrefixOf u
  let base :=
    if path_parts.isEmpty then dp ++ "_index"
    else dp ++ "_" ++ strJoin "_" path_parts
  let base := if u.query == "" then base else base ++ "_query_" ++ cfg.urlHash u.query
  sanitize_filename base ++ ".txt"

/-- Embeds `WebScraper.webpage_already_exists`: true only when the derived
page key and its sidecar both exist and the sidecar decodes to metadata
whose `source` equals the candidate URL string. -/
def webpage_already_exists (cfg : ScraperCfg) (u : Url) (st : Store) : Bool :=
  let filename := webpageFilename cfg u
  let metadata_filename := filename ++ ".metadata.json"
  if s3_file_exists st filename && s3_file_exists st metadata_filename then
    match lookupStore st metadata_filename with
    | some (.metadata m) => m.source == u.toRaw
    | _ => false
  else false

/-! ## Key collision resolution -/

/-- Candidate page filename for a given counter, as in `save_webpage`:
remove every `.txt` occurrence from the original name and append
`_<counter>.txt`. -/
def nextPageCandidate (original : String) (counter : Nat) : String :=
  strReplace original ".txt" "" ++ "_" ++ Nat.repr counter ++ ".txt"

/-- Fuel-bounded form of the `while self.s3_file_exists(filename)` loop of
`save_webpage`.  The fuel bounds the number of iterations; every store
reachable in the model frees a candidate within `st.length + 1` steps. -/
def ensureUniquePageGo (st : Store) (original : String) :
    Nat → String → Nat → String
  | 0, f, _ => f
  | fuel + 1, f, c =>
    if s3_file_exists st f then
      ensureUniquePageGo st original fuel (nextPageCandidate original c) (c + 1)
    else f

/-- The collision-resolved page filename chosen by `save_webpage`. -/
def ensureUniquePage (st : Store) (original : String) : String :=
  ensureUniquePageGo st original (st.length + 1) original 1

/-- Models `name, ext = f.rsplit('.', 1)` when `f` contains a dot, else
`(f, '')`, as in `download_file`. -/
def rsplitDot (f : String) : String × String :=
  if strHasSub f "." then
    let rev := f.data.reverse
    let extRev := rev.takeWhile fun c => !(c == '.')
    let nameRev := rev.drop (extRev.length + 1)
    (⟨nameRev.reverse⟩, ⟨extRev.reverse⟩)
  else (f, "")

/-- Candidate file filename for a given counter, as in `download_file`:
the counter is inserted between the stem and the extension. -/
def nextFileFilename (original : String) (counter : Nat) : String :=
  let p := rsplitDot original
  if p.2 == "" then p.1 ++ "_" ++ Nat.repr counter
  else p.1 ++ "_" ++ Nat.repr counter ++ "." ++ p.2

/-- Fuel-bounded form of the collision loop of `download_file`; the
existence check runs on the domain-prefixed S3 key of each candidate. -/
def ensureUniqueFileGo (u : Url) (st : Store) (original : String) :
    Nat → String → Nat → String
  | 0, f, _ => f
  | fuel + 1, f, c =>
    if s3_file_exists st (get_s3_filename u f) then
      ensureUniqueFileGo u st original fuel (nextFileFilename original c) (c + 1)
    else f

/-- The collision-resolved local filename chosen by `download_file`. -/
def ensureUniqueFile (u : Url) (st : Store) (original : String) : String :=
  ensureUniqueFileGo u st original (st.length + 1) original 1

/-! ## Pages and fetch responses -/

/-- A fetched and parsed HTML document, as consumed by the crawler:
`linkHrefs` are the `href` attributes of `a`/`link`/`area` tags in document
order, `embedSrcs` the `src` or `data` attributes of
`embed`/`object`/`iframe` tags, `dataHrefs` the `data-href` attributes,
`title` models `soup.title.string`, and `text` models the output of
`extract_text_content` on the document. -/
structure Page where
  linkHrefs : List String
  embedSrcs : List String
  dataHrefs : List String
  title : Option String
  text : String
deriving DecidableEq, Repr

/-- A successful file-download response: body bytes, the `content-type`
header, and the filename named by the `Content-Disposition` header when the
regex in `download_file` extracts one. -/
structure FileResp where
  body : String
  contentType : String
  cdFilename : Option String
deriving DecidableEq, Repr

/-- The separator line `'=' * 50` of `save_webpage`. -/
def sep50 : String := ⟨List.replicate 50 '='⟩

/-- Embeds `WebScraper.save_webpage`: dedup check, filename derivation with
collision resolution, content composition, then the primary write followed
(only on success) by the sidecar write whose own result is discarded. -/
def save_webpage (cfg : ScraperCfg) (fail : String → Bool) (u : Url) (pg : Page)
    (st : Store) : Store × Bool :=
  if webpage_already_exists cfg u st then (st, true)
  else
    let original := webpageFilename cfg u
    let filename := ensureUniquePage st original
    let title := match pg.title with
      | some t => t
      | none => filename
    let full_content :=
      "URL: " ++ u.toRaw ++ "\nTitle: " ++ title ++ "\n" ++ sep50 ++ "\n\n" ++ pg.text
    match upload_to_s3 fail st filename (.content full_content "text/plain") with
    | (st1, true) =>
      let md := create_bedrock_metadata cfg u filename title "text/plain"
        full_content.length (some u)
      let st2 := (upload_to_s3 fail st1 (filename ++ ".metadata.json") (.metadata md)).1
      (st2, true)
    | (st1, false) => (st1, false)

/-- The filename derivation of `download_file`: the `Content-Disposition`
name when present, else the last path segment when it has an extension,
else a synthesized `file_<hash>` name with an extension from the
content type. -/
def downloadFilename (cfg : ScraperCfg) (u : Url) (r : FileResp) : String :=
  match r.cdFilename with
  | some f => f
  | none =>
    let seg := (strSplit u.path '/').getLastD ""
    if seg == "" || !(strHasSub seg ".") then
      if strHasSub (strLower r.contentType) "pdf" then
        "file_" ++ cfg.urlHash u.toRaw ++ ".pdf"
      else
        "file_" ++ cfg.urlHash u.toRaw ++ ".bin"
    else seg

/-- Embeds `WebScraper.download_file` proper: on a fetch failure the
exception is caught and nothing changes; otherwise the derived filename is
sanitized, dedup-checked, collision-resolved, and the body and sidecar are
written, recording the URL in the downloaded set. -/
def download_file (cfg : ScraperCfg) (fail : String → Bool) (u source_url : Url)
    (resp : Option FileResp) (st : Store) (downloaded : List String) :
    Store × List String × Bool :=
  match resp with
  | none => (st, downloaded, false)
  | some r =>
    let filename := sanitize_filename (downloadFilename cfg u r)
    if file_already_exists u filename st then
      (st, if u.toRaw ∈ downloaded then downloaded else u.toRaw :: downloaded, true)
    else
      let filename := ensureUniqueFile u st filename
      let s3_filename := get_s3_filename u filename
      match upload_to_s3 fail st s3_filename (.content r.body r.contentType) with
      | (st1, true) =>
        let md := create_bedrock_metadata cfg u filename filename r.contentType
          r.body.length (some source_url)
        let st2 := (upload_to_s3 fail st1 (s3_filename ++ ".metadata.json") (.metadata md)).1
        (st2, if u.toRaw ∈ downloaded then downloaded else u.toRaw :: downloaded, true)
      | (st1, false) => (st1, downloaded, false)

/-! ## Link and file extraction (`WebScraper.find_links_and_files`) -/

/-- The fixed downloadable-extension set of `WebScraper.__init__`. -/
def downloadableExts : List String :=
  [".pdf", ".doc", ".docx", ".xls", ".xlsx", ".ppt", ".pptx", ".txt", ".csv"]

/-- The fixed excluded-asset-extension set of `WebScraper.__init__`. -/
def excludedExts : List String :=
  [".css", ".js", ".ico", ".png", ".jpg", ".jpeg", ".gif", ".woff", ".woff2",
   ".ttf", ".eot", ".map", ".json"]

/-- Does the lower-cased path end with a downloadable extension? -/
def isDownloadablePath (u : Url) : Bool :=
  downloadableExts.any fun e => strEnds (strLower u.path) e

/-- Does the lower-cased path end with an excluded asset extension? -/
def isExcludedExtPath (u : Url) : Bool :=
  excludedExts.any fun e => strEnds (strLower u.path) e

/-- Remove later duplicates from a list, keeping first occurrences; used to
model the Python `set` accumulators of `find_links_and_files`. -/
def dedupUrlsGo : List Url → List Url → List Url
  | [], _ => []
  | x :: xs, seen => if x ∈ seen then dedupUrlsGo xs seen else x :: dedupUrlsGo xs (x :: seen)

/-- Duplicate-free list with the same members as the input. -/
def dedupUrls (l : List Url) : List Url := dedupUrlsGo l []

/-- Embeds `WebScraper.find_links_and_files`.  The Python function
accumulates into the sets `links` and `files`; the model returns
duplicate-free lists whose membership coincides with those sets: an
`a`/`link`/`area` href resolves via `urljoin` and goes to the files when
downloadable-and-not-excluded, else to the links when `is_valid_url` accepts
it and its path does not end in an excluded asset extension;
`embed`/`object`/`iframe` sources feed only the files; `data-href`
attributes feed only the links. -/
def find_links_and_files (cfg : ScraperCfg) (pg : Page) (base : Url) :
    List Url × List Url :=
  let anchorUrls := pg.linkHrefs.map (urljoin base)
  let links1 := anchorUrls.filter fun f =>
    !(isDownloadablePath f && !isExcludedExtPath f)
      && is_valid_url cfg f && !isExcludedExtPath f
  let files1 := anchorUrls.filter fun f => isDownloadablePath f && !isExcludedExtPath f
  let embedUrls := pg.embedSrcs.map (urljoin base)
  let files2 := embedUrls.filter fun f => isDownloadablePath f && !isExcludedExtPath f
  let dataUrls := pg.dataHrefs.map (urljoin base)
  let links2 := dataUrls.filter (is_valid_url cfg)
  (dedupUrls (links1 ++ links2), dedupUrls (files1 ++ files2))

/-! ## The site being crawled -/

/-- The external web as the crawler observes it.  `pages u = none` models a
failed fetch or parse of `u` (exception caught in `process_url`);
`files u = none` models a failed file download.  `sitemapUrls` models the
`loc` entries collected by `fetch_sitemap_urls` before the `is_valid_url`
filter; the HTTP fetching and XML parsing of the sitemap are abstracted. -/
structure Site where
  pages : Url → Option Page
  files : Url → Option FileResp
  sitemapUrls : List Url

/-- Embeds `WebScraper.process_url`: fetch and parse the page, save it
(result discarded), and return the extracted links and files; any failure
is caught and yields empty sets, never an exception. -/
def process_url (cfg : ScraperCfg) (site : Site) (u : Url) (st : Store) :
    Store × List Url × List Url :=
  match site.pages u with
  | none => (st, [], [])
  | some pg =>
    let st1 := (save_webpage cfg (fun _ => false) u pg st).1
    let p := find_links_and_files cfg pg u
    (st1, p.1, p.2)

/-! ## Crawl scheduler (`WebScraper.crawl_website`)

The scheduler is modelled as a sequential small-step state machine.  The
thread pool completes one batch entirely before the next begins in the
source; intra-batch completion order is abstracted to submission order,
which no proved property depends on.  `depth` and `disc` are ghost fields
recording at which BFS depth and during which batch an entry was enqueued.
-/

/-- A frontier entry: the URL plus ghost bookkeeping — `depth` is 0 for
seeds and parent depth + 1 for discovered links; `disc` is the number of
batches already started when the entry was appended. -/
structure QEntry where
  url : Url
  depth : Nat
  disc : Nat
deriving DecidableEq, Repr

/-- Crawl state: the frontier queue, the visited set of raw URL strings,
the store, the downloaded set of raw file URL strings, the processed-page
counter, and ghost fields counting frontier insertions and recording the
dispatched batches. -/
structure CrawlSt where
  queue : List QEntry
  visited : List String
  store : Store
  downloaded : List String
  pages : Nat
  insertions : Nat
  batches : List (List QEntry)
  done : Bool
deriving Repr

/-- Batch formation: pop up to `n` entries from the queue front; each
popped entry is kept only if its URL is not yet visited, in which case it
is added to the visited set in the same step (the check-and-insert under
`visited_lock` in the source). -/
def selectBatch : Nat → List QEntry → List String →
    List QEntry × List QEntry × List String
  | 0, q, vis => ([], q, vis)
  | _ + 1, [], vis => ([], [], vis)
  | n + 1, e :: q, vis =>
    if e.url.toRaw ∈ vis then selectBatch n q vis
    else
      let r := selectBatch n q (e.url.toRaw :: vis)
      (e :: r.1, r.2.1, r.2.2)

/-- Append each not-yet-visited discovered link to the back of the queue,
counting every insertion. -/
def enqueueLinks (links : List Url) (depth disc : Nat) (st : CrawlSt) : CrawlSt :=
  links.foldl (fun s l =>
    if l.toRaw ∈ s.visited then s
    else { s with queue := s.queue ++ [⟨l, depth, disc⟩],
                  insertions := s.insertions + 1 }) st

/-- Handle one completed batch entry: process the URL, count the page,
collect its files paired with the source page, and enqueue its new links. -/
def processEntry (cfg : ScraperCfg) (site : Site) (disc : Nat)
    (acc : CrawlSt × List (Url × Url)) (e : QEntry) : CrawlSt × List (Url × Url) :=
  let r := process_url cfg site e.url acc.1.store
  let st1 := { acc.1 with store := r.1, pages := acc.1.pages + 1 }
  let st2 := enqueueLinks r.2.1 (e.depth + 1) disc st1
  (st2, acc.2 ++ r.2.2.map fun f => (f, e.url))

/-- Dispatch the batch file URLs to `download_file`, skipping URLs already
in the downloaded set (the submit-time filter of
`download_files_threaded`). -/
def runDownloads (cfg : ScraperCfg) (site : Site) (batchFiles : List (Url × Url))
    (st : CrawlSt) : CrawlSt :=
  batchFiles.foldl (fun s p =>
    if p.1.toRaw ∈ s.downloaded then s
    else
      let r := download_file cfg (fun _ => false) p.1 p.2 (site.files p.1)
        s.store s.downloaded
      { s with store := r.1, downloaded := r.2.1 }) st

/-- One iteration of the `while url_queue and pages_processed < max_pages`
loop: form a batch of up to `max_workers` unvisited entries, stop when the
batch comes back empty, otherwise process every entry and then download the
batch files. -/
def crawlStep (cfg : ScraperCfg) (site : Site) (st : CrawlSt) : CrawlSt :=
  if st.done then st
  else if st.queue = [] ∨ cfg.max_pages ≤ st.pages then { st with done := true }
  else
    let batch_size := min cfg.max_workers st.queue.length
    let r := selectBatch batch_size st.queue st.visited
    if r.1 = [] then { st with queue := r.2.1, visited := r.2.2, done := true }
    else
      let disc := st.batches.length + 1
      let st1 := { st with queue := r.2.1, visited := r.2.2,
                           batches := st.batches ++ [r.1] }
      let s := r.1.foldl (processEntry cfg site disc) (st1, [])
      runDownloads cfg site s.2 s.1

/-- Iterate `crawlStep` under fuel; a `done` state is a fixed point. -/
def crawlLoop (cfg : ScraperCfg) (site : Site) : Nat → CrawlSt → CrawlSt
  | 0, st => st
  | fuel + 1, st => if st.done then st else crawlLoop cfg site fuel (crawlStep cfg site st)

/-- The seeded initial state of `crawl_website`: the base URL followed by
the sitemap URLs that pass `is_valid_url`, all at depth 0, with the
insertion counter matching the seed count. -/
def initialCrawlSt (cfg : ScraperCfg) (site : Site) (st0 : Store) : CrawlSt :=
  let seeds := (⟨cfg.base_url, 0, 0⟩ : QEntry)
    :: (site.sitemapUrls.filter (is_valid_url cfg)).map fun u => (⟨u, 0, 0⟩ : QEntry)
  { queue := seeds, visited := [], store := st0, downloaded := [], pages := 0,
    insertions := seeds.length, batches := [], done := false }

/-- Embeds `WebScraper.crawl_website` against the given initial store. -/
def crawl_website (cfg : ScraperCfg) (site : Site) (fuel : Nat) (st0 : Store) :
    CrawlSt :=
  crawlLoop cfg site fuel (initialCrawlSt cfg site st0)

/-! ## Lambda entry point (`lambda_handler`) -/

/-- The invocation event, after the `event.get` defaulting of the numeric
fields.  `none` (or an empty string) for a required field models a missing
parameter. -/
structure Event where
  base_url : Option String
  s3_bucket : Option String
  max_workers : Nat
  max_pages : Nat
  excluded_urls : List String

/-- The structured result returned to the invoker; the counts are present
exactly on the success path. -/
structure LambdaResult where
  statusCode : Nat
  pages_crawled : Option Nat
  files_downloaded : Option Nat
deriving DecidableEq, Repr

/-- Embeds `lambda_handler`: a missing (or falsy) `base_url` or `s3_bucket`
yields a 400 result; otherwise the crawl runs to completion and a 200
result reports the visited and downloaded counts. -/
def lambda_handler (feed : String → Bool) (hash : String → String)
    (today : String) (site : Site) (fuel : Nat) (st0 : Store) (ev : Event) :
    LambdaResult :=
  match ev.base_url, ev.s3_bucket with
  | some b, some k =>
    if b == "" || k == "" then
      { statusCode := 400, pages_crawled := none, files_downloaded := none }
    else
      let cfg : ScraperCfg :=
        { base_url := parseUrl b, s3_bucket := k, max_workers := ev.max_workers,
          max_pages := ev.max_pages, excluded_urls := ev.excluded_urls,
          feedOrDynamic := feed, urlHash := hash, today := today }
      let fin := crawl_website cfg site fuel st0
      { statusCode := 200, pages_crawled := some fin.visited.length,
        files_downloaded := some fin.downloaded.length }
  | _, _ => { statusCode := 400, pages_crawled := none, files_downloaded := none }

/-! ## Derived predicates used in claim statements -/

/-- The raw URL contains one of the six excluded substrings of
`is_valid_url` anywhere in its lower-cased form. -/
def hasExcludedToken (u : Url) : Bool :=
  excludedTokens.any fun t => strHasSub (strLower u.toRaw) t

/-- The `file_url` metadata attribute recorded at a store key, when the key
holds a decodable sidecar. -/
def metaFileUrlAt (st : Store) (k : String) : Option String :=
  match lookupStore st k with
  | some (.metadata m) => some m.file_url
  | _ => none

/-- The raw URL strings dispatched to the page processor, in dispatch
order. -/
def dispatchedRaw (st : CrawlSt) : List String :=
  st.batches.flatten.map fun e => e.url.toRaw

/-- Invariant carried by every crawl state: dispatched URLs are
duplicate-free and visited, the visited set is duplicate-free, and the
visited cardinality plus the pending queue never exceeds the number of
frontier insertions. -/
def CrawlInv (st : CrawlSt) : Prop :=
  (dispatchedRaw st).Nodup
  ∧ (∀ e ∈ st.batches.flatten, e.url.toRaw ∈ st.visited)
  ∧ st.visited.Nodup
  ∧ st.visited.length + st.queue.length ≤ st.insertions

/-- Two crawl states that agree on everything except the content store. -/
def SameCrawl (a b : CrawlSt) : Prop :=
  a.queue = b.queue ∧ a.visited = b.visited ∧ a.downloaded = b.downloaded
    ∧ a.pages = b.pages ∧ a.insertions = b.insertions ∧ a.batches = b.batches
    ∧ a.done = b.done

/-- Ghost invariant for batch ordering: every queued entry was discovered
no later than the number of batches already started, and every dispatched
entry sits in a batch whose index is at least its discovery index. -/
def DiscInv (st : CrawlSt) : Prop :=
  (∀ e ∈ st.queue, e.disc ≤ st.batches.length)
  ∧ ∀ p ∈ st.batches.enum, ∀ e ∈ p.2, e.disc ≤ p.1

/-- The strict breadth-first level order asserted by the specification: an
entry of strictly greater discovery depth is only ever dispatched in a
strictly later batch than any entry of smaller depth. -/
def StrictLevelOrder (cfg : ScraperCfg) (site : Site) (fuel : Nat) (st0 : Store) :
    Prop :=
  let bs := (crawl_website cfg site fuel st0).batches
  ∀ p1 ∈ bs.enum, ∀ p2 ∈ bs.enum, ∀ e1 ∈ p1.2, ∀ e2 ∈ p2.2,
    e1.depth < e2.depth → p1.1 < p2.1

/-! ## Concrete crawl scenarios -/

/-- A concrete configuration for the scenario runs: base URL
`https://www.example.org/`, two workers, a page budget of ten, no
exclusions, and constant stand-ins for the hash and date. -/
def exCfg : ScraperCfg :=
  { base_url := parseUrl "https://www.example.org/", s3_bucket := "bkt",
    max_workers := 2, max_pages := 10, excluded_urls := [],
    feedOrDynamic := fun _ => false, urlHash := fun _ => "abcd1234",
    today := "2026-10-12" }

/-- The scenario base URL. -/
def rootUrl : Url := parseUrl "https://www.example.org/"

/-- The absolute URL of the linked brochure document. -/
def pdfUrl : Url := ⟨"https", "www.example.org", "/brochure.pdf", "", ""⟩

/-- A page whose only outgoing reference is the relative link
`/brochure.pdf`. -/
def c9Page : Page :=
  { linkHrefs := ["/brochure.pdf"], embedSrcs := [], dataHrefs := [],
    title := some "Home", text := "welcome" }

/-- Single-page site linking one PDF document. -/
def c9Site : Site :=
  { pages := fun u => if u = rootUrl then some c9Page else none,
    files := fun u => if u = pdfUrl then some ⟨"PDFBYTES", "application/pdf", none⟩ else none,
    sitemapUrls := [] }

/-- A single static page with no outgoing links. -/
def c3Page : Page :=
  { linkHrefs := [], embedSrcs := [], dataHrefs := [], title := some "T",
    text := "hello" }

/-- A static one-page site with no files and no sitemap. -/
def c3Site : Site :=
  { pages := fun u => if u = rootUrl then some c3Page else none,
    files := fun _ => none, sitemapUrls := [] }

/-- The state after the first crawl run against the static site, starting
from an empty store. -/
def c3run1 : CrawlSt := crawl_website exCfg c3Site 10 []

/-- The invocation event for the static-site scenario. -/
def c3ev : Event :=
  { base_url := some "https://www.example.org/", s3_bucket := some "bkt",
    max_workers := 2, max_pages := 10, excluded_urls := [] }

/-- Scenario URL `/a`. -/
def aUrl : Url := ⟨"https", "www.example.org", "/a", "", ""⟩

/-- Scenario URL `/b`. -/
def bUrl : Url := ⟨"https", "www.example.org", "/b", "", ""⟩

/-- Scenario URL `/c`. -/
def cUrl : Url := ⟨"https", "www.example.org", "/c", "", ""⟩

/-- Scenario URL `/d`. -/
def dUrl : Url := ⟨"https", "www.example.org", "/d", "", ""⟩

/-- A page with the given outgoing link hrefs and no other references. -/
def mkPage (ls : List String) : Page :=
  { linkHrefs := ls, embedSrcs := [], dataHrefs := [], title := some "t",
    text := "x" }

/-- Site for the batch-ordering scenario: the root links three depth-1
pages, the first of which links one depth-2 page.  With two workers the
depth-1 page `/c` and the depth-2 page `/d` end up in the same batch. -/
def c5Site : Site :=
  { pages := fun u =>
      if u = rootUrl then some (mkPage ["/a", "/b", "/c"])
      else if u = aUrl then some (mkPage ["/d"])
      else if u = bUrl then some (mkPage [])
      else if u = cUrl then some (mkPage [])
      else if u = dUrl then some (mkPage [])
      else none,
    files := fun _ => none, sitemapUrls := [] }

/-- A write-failure oracle that fails exactly the metadata sidecar write of
the scenario page. -/
def c7fail : String → Bool := fun k => k == "main_index.txt.metadata.json"

/-- A sidecar value recording the scenario base URL as its source. -/
def c1Meta : Metadata :=
  create_bedrock_metadata exCfg rootUrl "main_index.txt" "T" "text/plain" 5
    (some rootUrl)

/-- A store holding the scenario page together with its sidecar. -/
def c1Store : Store :=
  [("main_index.txt", .content "x" "text/plain"),
   ("main_index.txt.metadata.json", .metadata c1Meta)]

/-- First URL of the key-collision witness pair: path `/a/b`. -/
def w1Url : Url := parseUrl "https://example.org/a/b"

/-- Second URL of the key-collision witness pair: path `/a_b`, which
derives the same page filename as `/a/b`. -/
def w2Url : Url := parseUrl "https://example.org/a_b"

/-- First URL of the concrete file-collision pair. -/
def f1Url : Url := ⟨"https", "www.example.org", "/x/brochure.pdf", "", ""⟩

/-- Second URL of the concrete file-collision pair; its last path segment
coincides with the first URL's. -/
def f2Url : Url := ⟨"https", "www.example.org", "/y/brochure.pdf", "", ""⟩

/-- The download response used by the file-collision scenario. -/
def fResp : FileResp := ⟨"BYTES", "application/pdf", none⟩

/-- A crawl state with one visited URL and an exhausted queue, used to
witness visited-set monotonicity across a step. -/
def c2St : CrawlSt :=
  { queue := [], visited := ["https://www.example.org/"], store := [],
    downloaded := [], pages := 1, insertions := 1, batches := [], done := false }

/-! ## Helper lemmas -/

/-- Membership in a strip is membership in the original list. -/
theorem mem_of_mem_pyStrip {c : Char} {p : Char → Bool} {l : List Char}
    (h : c ∈ pyStrip p l) : c ∈ l := by
  unfold pyStrip at h
  rw [List.mem_reverse] at h
  have h1 := (List.dropWhile_sublist (l := (l.dropWhile p).reverse) (p := p)).mem h
  rw [List.mem_reverse] at h1
  exact (List.dropWhile_sublist (l := l) (p := p)).mem h1

/-- Membership in the deduplicated list is membership in the original. -/
theorem mem_of_mem_dedupUrlsGo {x : Url} :
    ∀ (l seen : List Url), x ∈ dedupUrlsGo l seen → x ∈ l := by
  intro l
  induction l with
  | nil => intro seen h; simp [dedupUrlsGo] at h
  | cons a as ih =>
    intro seen h
    by_cases hm : a ∈ seen
    · simp only [dedupUrlsGo, if_pos hm] at h
      exact List.mem_cons_of_mem _ (ih _ h)
    · simp only [dedupUrlsGo, if_neg hm, List.mem_cons] at h
      rcases h with h | h
      · exact h ▸ List.mem_cons_self _ _
      · exact List.mem_cons_of_mem _ (ih _ h)

/-- Membership form for `dedupUrls`. -/
theorem mem_of_mem_dedupUrls {x : Url} {l : List Url} (h : x ∈ dedupUrls l) :
    x ∈ l := mem_of_mem_dedupUrlsGo l [] h

/-- A URL accepted by the classifier carries none of the excluded
substrings. -/
theorem token_free_of_valid (cfg : ScraperCfg) (u : Url)
    (h : is_valid_url cfg u = true) : hasExcludedToken u = false := by
  unfold is_valid_url at h
  dsimp only at h
  split_ifs at h
  simp only [Bool.and_eq_true, Bool.not_eq_true'] at h
  unfold hasExcludedToken
  exact h.2

/-- Appending the sidecar suffix always changes the key. -/
theorem metadata_key_ne (k : String) : k ++ ".metadata.json" ≠ k := by
  intro h
  have hlen := congrArg String.length h
  rw [String.length_append] at hlen
  have h14 : (".metadata.json" : String).length = 14 := rfl
  omega

/-- The visited set only receives additions during batch formation. -/
theorem selectBatch_vis_grow : ∀ (n : Nat) (q : List QEntry) (vis : List String),
    ∀ x ∈ vis, x ∈ (selectBatch n q vis).2.2
  | 0, q, vis => by simp [selectBatch]
  | n + 1, [], vis => by simp [selectBatch]
  | n + 1, e :: q, vis => by
    by_cases hv : e.url.toRaw ∈ vis
    · simp only [selectBatch, if_pos hv]
      exact selectBatch_vis_grow n q vis
    · intro x hx
      simp only [selectBatch, if_neg hv]
      exact selectBatch_vis_grow n q (e.url.toRaw :: vis) x (List.mem_cons_of_mem _ hx)

/-- Every batch member is freshly visited: it was not visited before the
batch was formed, it is visited afterwards, and it came from the queue. -/
theorem selectBatch_batch_mem : ∀ (n : Nat) (q : List QEntry) (vis : List String),
    ∀ e ∈ (selectBatch n q vis).1,
      e.url.toRaw ∈ (selectBatch n q vis).2.2 ∧ e.url.toRaw ∉ vis ∧ e ∈ q
  | 0, q, vis => by simp [selectBatch]
  | n + 1, [], vis => by simp [selectBatch]
  | n + 1, e :: q, vis => by
    by_cases hv : e.url.toRaw ∈ vis
    · simp only [selectBatch, if_pos hv]
      intro e' he'
      obtain ⟨h1, h2, h3⟩ := selectBatch_batch_mem n q vis e' he'
      exact ⟨h1, h2, List.mem_cons_of_mem _ h3⟩
    · simp only [selectBatch, if_neg hv]
      intro e' he'
      rcases List.mem_cons.mp he' with rfl | he'
      · exact ⟨selectBatch_vis_grow n q _ _ (List.mem_cons_self _ _), hv,
          List.mem_cons_self _ _⟩
      · obtain ⟨h1, h2, h3⟩ := selectBatch_batch_mem n q (e.url.toRaw :: vis) e' he'
        exact ⟨h1, fun hc => h2 (List.mem_cons_of_mem _ hc),
          List.mem_cons_of_mem _ h3⟩

/-- The URLs of one batch are pairwise distinct. -/
theorem selectBatch_batch_nodup : ∀ (n : Nat) (q : List QEntry) (vis : List String),
    ((selectBatch n q vis).1.map fun e => e.url.toRaw).Nodup
  | 0, q, vis => by simp [selectBatch]
  | n + 1, [], vis => by simp [selectBatch]
  | n + 1, e :: q, vis => by
    by_cases hv : e.url.toRaw ∈ vis
    · simp only [selectBatch, if_pos hv]
      exact selectBatch_batch_nodup n q vis
    · simp only [selectBatch, if_neg hv, List.map_cons, List.nodup_cons]
      refine ⟨?_, selectBatch_batch_nodup n q (e.url.toRaw :: vis)⟩
      intro hc
      obtain ⟨e', he', heq⟩ := List.mem_map.mp hc
      have := (selectBatch_batch_mem n q (e.url.toRaw :: vis) e' he').2.1
      exact this (heq ▸ List.mem_cons_self _ _)

/-- Batch formation keeps the visited set duplicate-free. -/
theorem selectBatch_vis_nodup : ∀ (n : Nat) (q : List QEntry) (vis : List String),
    vis.Nodup → (selectBatch n q vis).2.2.Nodup
  | 0, q, vis => by simp [selectBatch]
  | n + 1, [], vis => by simp [selectBatch]
  | n + 1, e :: q, vis => by
    intro hnd
    by_cases hv : e.url.toRaw ∈ vis
    · simp only [selectBatch, if_pos hv]
      exact selectBatch_vis_nodup n q vis hnd
    · simp only [selectBatch, if_neg hv]
      exact selectBatch_vis_nodup n q (e.url.toRaw :: vis)
        (List.nodup_cons.mpr ⟨hv, hnd⟩)

/-- Visited plus pending never grows during batch formation. -/
theorem selectBatch_len : ∀ (n : Nat) (q : List QEntry) (vis : List String),
    (selectBatch n q vis).2.2.length + (selectBatch n q vis).2.1.length
      ≤ vis.length + q.length
  | 0, q, vis => by simp [selectBatch]
  | n + 1, [], vis => by simp [selectBatch]
  | n + 1, e :: q, vis => by
    by_cases hv : e.url.toRaw ∈ vis
    · simp only [selectBatch, if_pos hv, List.length_cons]
      have := selectBatch_len n q vis
      omega
    · simp only [selectBatch, if_neg hv, List.length_cons]
      have := selectBatch_len n q (e.url.toRaw :: vis)
      simp only [List.length_cons] at this
      omega

/-- Queue entries surviving batch formation come from the original queue. -/
theorem selectBatch_rest_mem : ∀ (n : Nat) (q : List QEntry) (vis : List String),
    ∀ e ∈ (selectBatch n q vis).2.1, e ∈ q
  | 0, q, vis => by simp [selectBatch]
  | n + 1, [], vis => by simp [selectBatch]
  | n + 1, e :: q, vis => by
    by_cases hv : e.url.toRaw ∈ vis
    · simp only [selectBatch, if_pos hv]
      exact fun e' he' => List.mem_cons_of_mem _ (selectBatch_rest_mem n q vis e' he')
    · simp only [selectBatch, if_neg hv]
      exact fun e' he' =>
        List.mem_cons_of_mem _ (selectBatch_rest_mem n q (e.url.toRaw :: vis) e' he')

/-- Appending links touches only the queue and the insertion counter. -/
theorem enqueueLinks_fields : ∀ (links : List Url) (d c : Nat) (st : CrawlSt),
    (enqueueLinks links d c st).visited = st.visited
    ∧ (enqueueLinks links d c st).batches = st.batches
    ∧ (enqueueLinks links d c st).store = st.store
    ∧ (enqueueLinks links d c st).downloaded = st.downloaded
    ∧ (enqueueLinks links d c st).pages = st.pages
    ∧ (enqueueLinks links d c st).done = st.done
  | [], d, c, st => by simp [enqueueLinks]
  | l :: ls, d, c, st => by
    have ih := enqueueLinks_fields ls d c
      (if l.toRaw ∈ st.visited then st
       else { st with queue := st.queue ++ [⟨l, d, c⟩],
                      insertions := st.insertions + 1 })
    by_cases hv : l.toRaw ∈ st.visited
    · simpa [enqueueLinks, List.foldl_cons, hv] using ih
    · simpa [enqueueLinks, List.foldl_cons, hv] using ih

/-- Every queue extension is matched by an insertion count increment. -/
theorem enqueueLinks_balance : ∀ (links : List Url) (d c : Nat) (st : CrawlSt),
    (enqueueLinks links d c st).queue.length + st.insertions
      = st.queue.length + (enqueueLinks links d c st).insertions
  | [], d, c, st => by simp [enqueueLinks]
  | l :: ls, d, c, st => by
    by_cases hv : l.toRaw ∈ st.visited
    · have ih := enqueueLinks_balance ls d c st
      simpa [enqueueLinks, List.foldl_cons, hv] using ih
    · have ih := enqueueLinks_balance ls d c
        { st with queue := st.queue ++ [⟨l, d, c⟩], insertions := st.insertions + 1 }
      simp only [enqueueLinks, List.foldl_cons, if_neg hv] at ih ⊢
      simp only [List.length_append, List.length_cons, List.length_nil] at ih
      omega

/-- A queue entry after appending links is either an original entry or one
of the newly appended links carrying the given depth and discovery index. -/
theorem enqueueLinks_queue_mem : ∀ (links : List Url) (d c : Nat) (st : CrawlSt),
    ∀ e ∈ (enqueueLinks links d c st).queue,
      e ∈ st.queue ∨ (e.depth = d ∧ e.disc = c)
  | [], d, c, st => by
    intro e he
    simp only [enqueueLinks, List.foldl_nil] at he
    exact Or.inl he
  | l :: ls, d, c, st => by
    by_cases hv : l.toRaw ∈ st.visited
    · intro e he
      simp only [enqueueLinks, List.foldl_cons, if_pos hv] at he
      exact enqueueLinks_queue_mem ls d c st e he
    · intro e he
      simp only [enqueueLinks, List.foldl_cons, if_neg hv] at he
      rcases enqueueLinks_queue_mem ls d c _ e he with hm | hm
      · simp only [List.mem_append, List.mem_singleton] at hm
        rcases hm with hm | rfl
        · exact Or.inl hm
        · exact Or.inr ⟨rfl, rfl⟩
      · exact Or.inr hm

/-- Processing a batch leaves visited, batches, downloaded and the done
flag unchanged, balances queue growth against insertions, and every queue
entry afterwards is an original entry or carries the batch discovery
index. -/
theorem processFold_spec (cfg : ScraperCfg) (site : Site) (disc : Nat) :
    ∀ (batch : List QEntry) (st : CrawlSt) (fs : List (Url × Url)),
    (batch.foldl (processEntry cfg site disc) (st, fs)).1.visited = st.visited
    ∧ (batch.foldl (processEntry cfg site disc) (st, fs)).1.batches = st.batches
    ∧ (batch.foldl (processEntry cfg site disc) (st, fs)).1.done = st.done
    ∧ (batch.foldl (processEntry cfg site disc) (st, fs)).1.downloaded = st.downloaded
    ∧ (batch.foldl (processEntry cfg site disc) (st, fs)).1.queue.length + st.insertions
        = st.queue.length + (batch.foldl (processEntry cfg site disc) (st, fs)).1.insertions
    ∧ ∀ e ∈ (batch.foldl (processEntry cfg site disc) (st, fs)).1.queue,
        e ∈ st.queue ∨ e.disc = disc
  | [], st, fs => ⟨rfl, rfl, rfl, rfl, rfl, fun _ he => Or.inl he⟩
  | e :: batch, st, fs => by
    simp only [List.foldl_cons]
    have hstep := enqueueLinks_fields (process_url cfg site e.url st.store).2.1
      (e.depth + 1) disc { st with store := (process_url cfg site e.url st.store).1,
                                   pages := st.pages + 1 }
    have hbal := enqueueLinks_balance (process_url cfg site e.url st.store).2.1
      (e.depth + 1) disc { st with store := (process_url cfg site e.url st.store).1,
                                   pages := st.pages + 1 }
    have hmem := enqueueLinks_queue_mem (process_url cfg site e.url st.store).2.1
      (e.depth + 1) disc { st with store := (process_url cfg site e.url st.store).1,
                                   pages := st.pages + 1 }
    have ih := processFold_spec cfg site disc batch
      (processEntry cfg site disc (st, fs) e).1
      (processEntry cfg site disc (st, fs) e).2
    simp only [processEntry] at ih ⊢
    refine ⟨?_, ?_, ?_, ?_, ?_, ?_⟩
    · rw [ih.1, hstep.1]
    · rw [ih.2.1, hstep.2.1]
    · rw [ih.2.2.1, hstep.2.2.2.2.2]
    · rw [ih.2.2.2.1, hstep.2.2.2.1]
    · have h1 := ih.2.2.2.2.1
      have h2 := hbal
      dsimp only at h2
      omega
    · intro x hx
      rcases ih.2.2.2.2.2 x hx with hm | hm
      · rcases hmem x hm with hm' | hm'
        · exact Or.inl hm'
        · exact Or.inr hm'.2
      · exact Or.inr hm

/-- File downloads touch only the store and the downloaded set. -/
theorem runDownloads_fields (cfg : ScraperCfg) (site : Site) :
    ∀ (bf : List (Url × Url)) (st : CrawlSt),
    (runDownloads cfg site bf st).visited = st.visited
    ∧ (runDownloads cfg site bf st).batches = st.batches
    ∧ (runDownloads cfg site bf st).queue = st.queue
    ∧ (runDownloads cfg site bf st).pages = st.pages
    ∧ (runDownloads cfg site bf st).insertions = st.insertions
    ∧ (runDownloads cfg site bf st).done = st.done
  | [], st => by simp [runDownloads]
  | p :: bf, st => by
    have ih := runDownloads_fields cfg site bf
      (if p.1.toRaw ∈ st.downloaded then st
       else { st with
          store := (download_file cfg (fun _ => false) p.1 p.2 (site.files p.1)
            st.store st.downloaded).1,
          downloaded := (download_file cfg (fun _ => false) p.1 p.2 (site.files p.1)
            st.store st.downloaded).2.1 })
    by_cases hv : p.1.toRaw ∈ st.downloaded
    · simpa [runDownloads, List.foldl_cons, hv] using ih
    · simpa [runDownloads, List.foldl_cons, hv] using ih

/-- Indexed-batch membership after appending one batch: an enum entry of
the extended list is an entry of the original or the appended batch at
index equal to the original length. -/
theorem mem_enum_append_singleton {α : Type} {bs : List α} {b : α}
    {p : Nat × α} (h : p ∈ (bs ++ [b]).enum) :
    p ∈ bs.enum ∨ (p.1 = bs.length ∧ p.2 = b) := by
  rw [List.mem_enum_iff_getElem?] at h
  by_cases hlt : p.1 < bs.length
  · left
    rw [List.mem_enum_iff_getElem?]
    rwa [List.getElem?_append_left hlt] at h
  · right
    rw [List.getElem?_append_right (Nat.le_of_not_lt hlt)] at h
    rcases hk : p.1 - bs.length with _ | k
    · rw [hk] at h
      simp only [List.getElem?_cons_zero, Option.some.injEq] at h
      refine ⟨?_, h.symm⟩
      omega
    · rw [hk] at h
      simp at h

/-- The visited set only grows across a crawl step. -/
theorem crawlStep_visited_mono (cfg : ScraperCfg) (site : Site) (st : CrawlSt) :
    ∀ x ∈ st.visited, x ∈ (crawlStep cfg site st).visited := by
  intro x hx
  unfold crawlStep
  by_cases h1 : st.done
  · rw [if_pos h1]; exact hx
  · rw [if_neg h1]
    by_cases h2 : st.queue = [] ∨ cfg.max_pages ≤ st.pages
    · rw [if_pos h2]; exact hx
    · rw [if_neg h2]
      dsimp only
      by_cases h3 :
          (selectBatch (min cfg.max_workers st.queue.length) st.queue st.visited).1 = []
      · rw [if_pos h3]
        exact selectBatch_vis_grow _ _ _ x hx
      · rw [if_neg h3]
        rw [(runDownloads_fields cfg site _ _).1, (processFold_spec cfg site _ _ _ _).1]
        exact selectBatch_vis_grow _ _ _ x hx

/-- One crawl step preserves the dispatch/visited invariant. -/
theorem crawlStep_inv (cfg : ScraperCfg) (site : Site) (st : CrawlSt)
    (h : CrawlInv st) : CrawlInv (crawlStep cfg site st) := by
  obtain ⟨hnd, hsub, hvnd, hlen⟩ := h
  unfold crawlStep
  by_cases h1 : st.done
  · rw [if_pos h1]; exact ⟨hnd, hsub, hvnd, hlen⟩
  · rw [if_neg h1]
    by_cases h2 : st.queue = [] ∨ cfg.max_pages ≤ st.pages
    · rw [if_pos h2]
      refine ⟨hnd, hsub, hvnd, ?_⟩
      exact hlen
    · rw [if_neg h2]
      dsimp only
      by_cases h3 :
          (selectBatch (min cfg.max_workers st.queue.length) st.queue st.visited).1 = []
      · rw [if_pos h3]
        refine ⟨hnd, fun e he => selectBatch_vis_grow _ _ _ _ (hsub e he),
          selectBatch_vis_nodup _ _ _ hvnd, ?_⟩
        have hsl := selectBatch_len (min cfg.max_workers st.queue.length) st.queue st.visited
        dsimp only
        omega
      · rw [if_neg h3]
        have hrd := runDownloads_fields cfg site
          ((selectBatch (min cfg.max_workers st.queue.length) st.queue st.visited).1.foldl
            (processEntry cfg site (st.batches.length + 1))
            ({ st with
                queue := (selectBatch (min cfg.max_workers st.queue.length) st.queue st.visited).2.1,
                visited := (selectBatch (min cfg.max_workers st.queue.length) st.queue st.visited).2.2,
                batches := st.batches ++ [(selectBatch (min cfg.max_workers st.queue.length) st.queue st.visited).1] }, [])).2
          ((selectBatch (min cfg.max_workers st.queue.length) st.queue st.visited).1.foldl
            (processEntry cfg site (st.batches.length + 1))
            ({ st with
                queue := (selectBatch (min cfg.max_workers st.queue.length) st.queue st.visited).2.1,
                visited := (selectBatch (min cfg.max_workers st.queue.length) st.queue st.visited).2.2,
                batches := st.batches ++ [(selectBatch (min cfg.max_workers st.queue.length) st.queue st.visited).1] }, [])).1
        have hpf := processFold_spec cfg site (st.batches.length + 1)
          (selectBatch (min cfg.max_workers st.queue.length) st.queue st.visited).1
          { st with
              queue := (selectBatch (min cfg.max_workers st.queue.length) st.queue st.visited).2.1,
              visited := (selectBatch (min cfg.max_workers st.queue.length) st.queue st.visited).2.2,
              batches := st.batches ++ [(selectBatch (min cfg.max_workers st.queue.length) st.queue st.visited).1] }
          []
        refine ⟨?_, ?_, ?_, ?_⟩
        · unfold dispatchedRaw
          rw [hrd.2.1, hpf.2.1]
          dsimp only
          rw [List.flatten_append]
          simp only [List.flatten_cons, List.flatten_nil, List.append_nil, List.map_append]
          rw [List.nodup_append]
          refine ⟨hnd, selectBatch_batch_nodup _ _ _, ?_⟩
          intro a ha hb
          obtain ⟨e, he, heq⟩ := List.mem_map.mp ha
          obtain ⟨e', he', heq'⟩ := List.mem_map.mp hb
          have hv1 : a ∈ st.visited := heq ▸ hsub e he
          have hv2 := (selectBatch_batch_mem _ _ _ e' he').2.1
          exact hv2 (heq' ▸ hv1)
        · intro e he
          rw [hrd.2.1, hpf.2.1] at he
          rw [hrd.1, hpf.1]
          dsimp only at he ⊢
          rw [List.flatten_append] at he
          simp only [List.flatten_cons, List.flatten_nil, List.append_nil,
            List.mem_append] at he
          rcases he with he | he
          · exact selectBatch_vis_grow _ _ _ _ (hsub e he)
          · exact (selectBatch_batch_mem _ _ _ e he).1
        · rw [hrd.1, hpf.1]
          exact selectBatch_vis_nodup _ _ _ hvnd
        · rw [hrd.1, hpf.1, hrd.2.2.1, hrd.2.2.2.2.1]
          have hbal := hpf.2.2.2.2.1
          have hsl := selectBatch_len (min cfg.max_workers st.queue.length) st.queue st.visited
          dsimp only at hbal ⊢
          omega

/-- One crawl step preserves the discovery-index invariant. -/
theorem crawlStep_disc (cfg : ScraperCfg) (site : Site) (st : CrawlSt)
    (h : DiscInv st) : DiscInv (crawlStep cfg site st) := by
  obtain ⟨hq, hb⟩ := h
  unfold crawlStep
  by_cases h1 : st.done
  · rw [if_pos h1]; exact ⟨hq, hb⟩
  · rw [if_neg h1]
    by_cases h2 : st.queue = [] ∨ cfg.max_pages ≤ st.pages
    · rw [if_pos h2]; exact ⟨hq, hb⟩
    · rw [if_neg h2]
      dsimp only
      by_cases h3 :
          (selectBatch (min cfg.max_workers st.queue.length) st.queue st.visited).1 = []
      · rw [if_pos h3]
        exact ⟨fun e he => hq e (selectBatch_rest_mem _ _ _ e he), hb⟩
      · rw [if_neg h3]
        have hrd := runDownloads_fields cfg site
          ((selectBatch (min cfg.max_workers st.queue.length) st.queue st.visited).1.foldl
            (processEntry cfg site (st.batches.length + 1))
            ({ st with
                queue := (selectBatch (min cfg.max_workers st.queue.length) st.queue st.visited).2.1,
                visited := (selectBatch (min cfg.max_workers st.queue.length) st.queue st.visited).2.2,
                batches := st.batches ++ [(selectBatch (min cfg.max_workers st.queue.length) st.queue st.visited).1] }, [])).2
          ((selectBatch (min cfg.max_workers st.queue.length) st.queue st.visited).1.foldl
            (processEntry cfg site (st.batches.length + 1))
            ({ st with
                queue := (selectBatch (min cfg.max_workers st.queue.length) st.queue st.visited).2.1,
                visited := (selectBatch (min cfg.max_workers st.queue.length) st.queue st.visited).2.2,
                batches := st.batches ++ [(selectBatch (min cfg.max_workers st.queue.length) st.queue st.visited).1] }, [])).1
        have hpf := processFold_spec cfg site (st.batches.length + 1)
          (selectBatch (min cfg.max_workers st.queue.length) st.queue st.visited).1
          { st with
              queue := (selectBatch (min cfg.max_workers st.queue.length) st.queue st.visited).2.1,
              visited := (selectBatch (min cfg.max_workers st.queue.length) st.queue st.visited).2.2,
              batches := st.batches ++ [(selectBatch (min cfg.max_workers st.queue.length) st.queue st.visited).1] }
          []
        constructor
        · intro e he
          rw [hrd.2.2.1] at he
          rw [hrd.2.1, hpf.2.1]
          dsimp only
          rcases hpf.2.2.2.2.2 e he with hm | hm
          · dsimp only at hm
            have := hq e (selectBatch_rest_mem _ _ _ e hm)
            simp only [List.length_append, List.length_cons, List.length_nil]
            omega
          · simp only [List.length_append, List.length_cons, List.length_nil]
            omega
        · intro p hp e he
          rw [hrd.2.1, hpf.2.1] at hp
          dsimp only at hp
          rcases mem_enum_append_singleton hp with hm | hm
          · exact hb p hm e he
          · rw [hm.2] at he
            have := hq e (selectBatch_batch_mem _ _ _ e he).2.2
            omega

/-- The crawl loop preserves any property preserved by one step. -/
theorem crawlLoop_preserves (cfg : ScraperCfg) (site : Site)
    (P : CrawlSt → Prop) (hstep : ∀ st, P st → P (crawlStep cfg site st)) :
    ∀ (fuel : Nat) (st : CrawlSt), P st → P (crawlLoop cfg site fuel st)
  | 0, st, h => h
  | fuel + 1, st, h => by
    unfold crawlLoop
    by_cases hd : st.done
    · rw [if_pos hd]; exact h
    · rw [if_neg hd]
      exact crawlLoop_preserves cfg site P hstep fuel _ (hstep st h)

/-- The seeded initial state satisfies both crawl invariants. -/
theorem initial_inv (cfg : ScraperCfg) (site : Site) (st0 : Store) :
    CrawlInv (initialCrawlSt cfg site st0) ∧ DiscInv (initialCrawlSt cfg site st0) := by
  refine ⟨⟨by simp [dispatchedRaw, initialCrawlSt], by simp [initialCrawlSt],
    by simp [initialCrawlSt], ?_⟩, ?_, by simp [initialCrawlSt]⟩
  · simp [initialCrawlSt]
  · intro e he
    simp only [initialCrawlSt, List.mem_cons] at he
    rcases he with rfl | he
    · simp
    · obtain ⟨u, _, rfl⟩ := List.mem_map.mp he
      simp

/-- A positive page dedup check short-circuits the save. -/
theorem save_webpage_skip (cfg : ScraperCfg) (fail : String → Bool) (u : Url)
    (pg : Page) (st : Store) (h : webpage_already_exists cfg u st = true) :
    save_webpage cfg fail u pg st = (st, true) := by
  unfold save_webpage
  rw [if_pos h]

/-- A positive file dedup check leaves the store unchanged. -/
theorem download_file_skip (cfg : ScraperCfg) (fail : String → Bool) (u src : Url)
    (r : FileResp) (st : Store) (dl : List String)
    (h : file_already_exists u (sanitize_filename (downloadFilename cfg u r)) st = true) :
    (download_file cfg fail u src (some r) st dl).1 = st := by
  unfold download_file
  dsimp only
  rw [if_pos h]

/-- The links and files extracted by `process_url` do not depend on the
store contents. -/
theorem process_url_snd (cfg : ScraperCfg) (site : Site) (u : Url)
    (stA stB : Store) :
    (process_url cfg site u stA).2 = (process_url cfg site u stB).2 := by
  unfold process_url
  cases site.pages u <;> rfl

/-- The downloaded set produced by a failure-free `download_file` depends
only on the response presence and the previous downloaded set. -/
theorem download_file_noFail_downloaded (cfg : ScraperCfg) (u src : Url)
    (resp : Option FileResp) (st : Store) (dl : List String) :
    (download_file cfg (fun _ => false) u src resp st dl).2.1
      = match resp with
        | none => dl
        | some _ => if u.toRaw ∈ dl then dl else u.toRaw :: dl := by
  cases resp with
  | none => rfl
  | some r =>
    unfold download_file
    dsimp only
    by_cases hd : file_already_exists u (sanitize_filename (downloadFilename cfg u r)) st
    · rw [if_pos hd]
    · rw [if_neg hd]
      simp [upload_to_s3]

/-- Link enqueueing preserves agreement of two states differing only in
their stores. -/
theorem enqueueLinks_same (links : List Url) (d c : Nat) :
    ∀ {a b : CrawlSt}, SameCrawl a b →
      SameCrawl (enqueueLinks links d c a) (enqueueLinks links d c b) := by
  induction links with
  | nil => exact fun h => h
  | cons l ls ih =>
    intro a b h
    obtain ⟨h1, h2, h3, h4, h5, h6, h7⟩ := h
    simp only [enqueueLinks, List.foldl_cons] at ih ⊢
    by_cases hv : l.toRaw ∈ a.visited
    · rw [if_pos hv, if_pos (h2 ▸ hv)]
      exact ih ⟨h1, h2, h3, h4, h5, h6, h7⟩
    · rw [if_neg hv, if_neg (h2 ▸ hv)]
      have hsame : SameCrawl
          { a with queue := a.queue ++ [⟨l, d, c⟩], insertions := a.insertions + 1 }
          { b with queue := b.queue ++ [⟨l, d, c⟩], insertions := b.insertions + 1 } :=
        ⟨congrArg (· ++ [⟨l, d, c⟩]) h1, h2, h3, h4, congrArg (· + 1) h5, h6, h7⟩
      exact ih hsame

/-- Batch processing preserves agreement of two states differing only in
their stores, and produces the same batch file list. -/
theorem processFold_same (cfg : ScraperCfg) (site : Site) (disc : Nat) :
    ∀ (batch : List QEntry) {a b : CrawlSt} (fsa fsb : List (Url × Url)),
      SameCrawl a b → fsa = fsb →
      SameCrawl (batch.foldl (processEntry cfg site disc) (a, fsa)).1
          (batch.foldl (processEntry cfg site disc) (b, fsb)).1
      ∧ (batch.foldl (processEntry cfg site disc) (a, fsa)).2
          = (batch.foldl (processEntry cfg site disc) (b, fsb)).2 := by
  intro batch
  induction batch with
  | nil => exact fun fsa fsb h hfs => ⟨h, hfs⟩
  | cons e batch ih =>
    intro a b fsa fsb h hfs
    obtain ⟨h1, h2, h3, h4, h5, h6, h7⟩ := h
    simp only [List.foldl_cons]
    have hsnd := process_url_snd cfg site e.url a.store b.store
    refine ih _ _ ?_ ?_
    · simp only [processEntry]
      have hsame : SameCrawl
          { a with store := (process_url cfg site e.url a.store).1, pages := a.pages + 1 }
          { b with store := (process_url cfg site e.url b.store).1, pages := b.pages + 1 } :=
        ⟨h1, h2, h3, congrArg (· + 1) h4, h5, h6, h7⟩
      rw [show (process_url cfg site e.url a.store).2.1
          = (process_url cfg site e.url b.store).2.1 from congrArg Prod.fst hsnd]
      exact enqueueLinks_same _ _ _ hsame
    · simp only [processEntry]
      rw [hfs, show (process_url cfg site e.url a.store).2.2
          = (process_url cfg site e.url b.store).2.2 from congrArg Prod.snd hsnd]

/-- File downloading preserves agreement of two states differing only in
their stores. -/
theorem runDownloads_same (cfg : ScraperCfg) (site : Site) :
    ∀ (bf : List (Url × Url)) {a b : CrawlSt}, SameCrawl a b →
      SameCrawl (runDownloads cfg site bf a) (runDownloads cfg site bf b) := by
  intro bf
  induction bf with
  | nil => exact fun h => h
  | cons p bf ih =>
    intro a b h
    obtain ⟨h1, h2, h3, h4, h5, h6, h7⟩ := h
    simp only [runDownloads, List.foldl_cons] at ih ⊢
    by_cases hv : p.1.toRaw ∈ a.downloaded
    · rw [if_pos hv, if_pos (h3 ▸ hv)]
      exact ih ⟨h1, h2, h3, h4, h5, h6, h7⟩
    · rw [if_neg hv, if_neg (h3 ▸ hv)]
      refine ih ⟨h1, h2, ?_, h4, h5, h6, h7⟩
      rw [download_file_noFail_downloaded, download_file_noFail_downloaded, h3]

/-- A crawl step preserves agreement of two states differing only in their
stores. -/
theorem crawlStep_same (cfg : ScraperCfg) (site : Site) {a b : CrawlSt}
    (h : SameCrawl a b) : SameCrawl (crawlStep cfg site a) (crawlStep cfg site b) := by
  obtain ⟨h1, h2, h3, h4, h5, h6, h7⟩ := h
  unfold crawlStep
  rw [h1, h2, h3, h4, h5, h6, h7]
  by_cases hd : b.done
  · rw [if_pos hd, if_pos hd]
    exact ⟨h1, h2, h3, h4, h5, h6, h7⟩
  · rw [if_neg hd, if_neg hd]
    by_cases he : b.queue = [] ∨ cfg.max_pages ≤ b.pages
    · rw [if_pos he, if_pos he]
      exact ⟨rfl, rfl, rfl, rfl, rfl, rfl, rfl⟩
    · rw [if_neg he, if_neg he]
      dsimp only
      by_cases hb : (selectBatch (min cfg.max_workers b.queue.length) b.queue b.visited).1 = []
      · rw [if_pos hb, if_pos hb]
        exact ⟨rfl, rfl, rfl, rfl, rfl, rfl, rfl⟩
      · rw [if_neg hb, if_neg hb]
        have hpf := processFold_same cfg site (b.batches.length + 1)
          (selectBatch (min cfg.max_workers b.queue.length) b.queue b.visited).1
          [] []
          (a := { queue := (selectBatch (min cfg.max_workers b.queue.length) b.queue b.visited).2.1,
                  visited := (selectBatch (min cfg.max_workers b.queue.length) b.queue b.visited).2.2,
                  store := a.store, downloaded := b.downloaded, pages := b.pages,
                  insertions := b.insertions,
                  batches := b.batches ++ [(selectBatch (min cfg.max_workers b.queue.length) b.queue b.visited).1],
                  done := b.done })
          (b := { queue := (selectBatch (min cfg.max_workers b.queue.length) b.queue b.visited).2.1,
                  visited := (selectBatch (min cfg.max_workers b.queue.length) b.queue b.visited).2.2,
                  store := b.store, downloaded := b.downloaded, pages := b.pages,
                  insertions := b.insertions,
                  batches := b.batches ++ [(selectBatch (min cfg.max_workers b.queue.length) b.queue b.visited).1],
                  done := b.done })
          ⟨rfl, rfl, rfl, rfl, rfl, rfl, rfl⟩ rfl
        rw [hpf.2]
        exact runDownloads_same cfg site _ hpf.1

/-- The crawl loop preserves agreement of two states differing only in
their stores. -/
theorem crawlLoop_same (cfg : ScraperCfg) (site : Site) :
    ∀ (fuel : Nat) {a b : CrawlSt}, SameCrawl a b →
      SameCrawl (crawlLoop cfg site fuel a) (crawlLoop cfg site fuel b)
  | 0, a, b, h => h
  | fuel + 1, a, b, h => by
    unfold crawlLoop
    rw [h.2.2.2.2.2.2]
    by_cases hd : b.done
    · rw [if_pos hd, if_pos hd]
      exact h
    · rw [if_neg hd, if_neg hd]
      exact crawlLoop_same cfg site fuel (crawlStep_same cfg site h)

/-- When every page of the site is already stored with matching metadata,
`process_url` leaves the store untouched. -/
theorem process_url_store_fixed (cfg : ScraperCfg) (site : Site) (st1 : Store)
    (hp : ∀ u pg, site.pages u = some pg → webpage_already_exists cfg u st1 = true)
    (u : Url) : (process_url cfg site u st1).1 = st1 := by
  unfold process_url
  cases hpg : site.pages u with
  | none => rfl
  | some pg =>
    dsimp only
    rw [save_webpage_skip cfg _ u pg st1 (hp u pg hpg)]

/-- Batch processing cannot change a store in which every page of the site
is already present with matching metadata. -/
theorem processFold_store_fixed (cfg : ScraperCfg) (site : Site) (st1 : Store)
    (disc : Nat)
    (hp : ∀ u pg, site.pages u = some pg → webpage_already_exists cfg u st1 = true) :
    ∀ (batch : List QEntry) (st : CrawlSt) (fs : List (Url × Url)),
      st.store = st1 →
      (batch.foldl (processEntry cfg site disc) (st, fs)).1.store = st1
  | [], st, fs, h => h
  | e :: batch, st, fs, h => by
    simp only [List.foldl_cons]
    refine processFold_store_fixed cfg site st1 disc hp batch _ _ ?_
    simp only [processEntry]
    rw [(enqueueLinks_fields _ _ _ _).2.2.1]
    dsimp only
    rw [h]
    exact process_url_store_fixed cfg site st1 hp e.url

/-- File downloading cannot change a store in which every file of the site
is already present with matching metadata. -/
theorem runDownloads_store_fixed (cfg : ScraperCfg) (site : Site) (st1 : Store)
    (hf : ∀ u r, site.files u = some r →
      file_already_exists u (sanitize_filename (downloadFilename cfg u r)) st1 = true) :
    ∀ (bf : List (Url × Url)) (st : CrawlSt), st.store = st1 →
      (runDownloads cfg site bf st).store = st1
  | [], st, h => h
  | p :: bf, st, h => by
    simp only [runDownloads, List.foldl_cons]
    by_cases hv : p.1.toRaw ∈ st.downloaded
    · rw [if_pos hv]
      exact runDownloads_store_fixed cfg site st1 hf bf st h
    · rw [if_neg hv]
      refine runDownloads_store_fixed cfg site st1 hf bf _ ?_
      dsimp only
      cases hr : site.files p.1 with
      | none => simpa [download_file] using h
      | some r =>
        rw [h]
        exact download_file_skip cfg _ p.1 p.2 r st1 st.downloaded
          (hf p.1 r hr)

/-- A crawl step cannot change a store against which the dedup oracles
answer true for every page and file of the site. -/
theorem crawlStep_store_fixed (cfg : ScraperCfg) (site : Site) (st1 : Store)
    (hp : ∀ u pg, site.pages u = some pg → webpage_already_exists cfg u st1 = true)
    (hf : ∀ u r, site.files u = some r →
      file_already_exists u (sanitize_filename (downloadFilename cfg u r)) st1 = true)
    (st : CrawlSt) (h : st.store = st1) : (crawlStep cfg site st).store = st1 := by
  unfold crawlStep
  by_cases h1 : st.done
  · rw [if_pos h1]; exact h
  · rw [if_neg h1]
    by_cases h2 : st.queue = [] ∨ cfg.max_pages ≤ st.pages
    · rw [if_pos h2]; exact h
    · rw [if_neg h2]
      dsimp only
      by_cases h3 :
          (selectBatch (min cfg.max_workers st.queue.length) st.queue st.visited).1 = []
      · rw [if_pos h3]; exact h
      · rw [if_neg h3]
        exact runDownloads_store_fixed cfg site st1 hf _ _
          (processFold_store_fixed cfg site st1 _ hp _ _ _ h)

/-- A prefix is no longer than the list it heads. -/
theorem hasPfx_length : ∀ (p l : List Char), hasPfx p l = true → p.length ≤ l.length
  | [], _, _ => Nat.zero_le _
  | _ :: _, [], h => by cases h
  | a :: as, b :: bs, h => by
    simp only [hasPfx, Bool.and_eq_true] at h
    have := hasPfx_length as bs h.2
    simp only [List.length_cons]
    omega

/-- Replacing `.txt` occurrences by nothing shortens a character list by a
multiple of four. -/
theorem listReplace_txt_length : ∀ l : List Char,
    ∃ n, (listReplace ['.', 't', 'x', 't'] [] l).length + 4 * n = l.length
  | [] => ⟨0, by simp [listReplace]⟩
  | c :: cs => by
    rw [listReplace]
    split
    · rename_i h
      simp only [show (['.', 't', 'x', 't'] : List Char).length = 4 from rfl]
      obtain ⟨n, hn⟩ := listReplace_txt_length ((c :: cs).drop 4)
      have hle : 4 ≤ (c :: cs).length := hasPfx_length _ _ h.1
      refine ⟨n + 1, ?_⟩
      simp only [List.nil_append, List.length_drop] at hn ⊢
      omega
    · obtain ⟨n, hn⟩ := listReplace_txt_length cs
      refine ⟨n, ?_⟩
      simp only [List.length_cons]
      omega
termination_by l => l.length
decreasing_by
  all_goals simp only [List.length_drop, List.length_cons]
  all_goals omega

/-- The last character of a character list. -/
def lastChar? : List Char → Option Char
  | [] => none
  | [c] => some c
  | _ :: c :: cs => lastChar? (c :: cs)

/-- The last character of an appended list is that of its non-empty second
part. -/
theorem lastChar?_append : ∀ (l r : List Char), r ≠ [] →
    lastChar? (l ++ r) = lastChar? r
  | [], _, _ => rfl
  | a :: l, r, h => by
    cases hl : l ++ r with
    | nil => exact absurd (List.append_eq_nil.mp hl).2 h
    | cons b bs =>
      have h1 : lastChar? ((a :: l) ++ r) = lastChar? (l ++ r) := by
        rw [List.cons_append, hl]
        simp only [lastChar?]
      rw [h1]
      exact lastChar?_append l r h

/-- Strings ending in `.txt` and `.metadata.json` respectively are
distinct. -/
theorem append_txt_ne_append_json (x y : String) :
    x ++ ".txt" ≠ y ++ ".metadata.json" := by
  intro h
  have hc := congrArg (fun s : String => lastChar? s.data) h
  simp only [String.data_append] at hc
  rw [lastChar?_append x.data _ (by decide), lastChar?_append y.data _ (by decide)] at hc
  rw [show lastChar? (".txt" : String).data = some 't' from rfl,
    show lastChar? (".metadata.json" : String).data = some 'n' from rfl] at hc
  cases hc

/-- The first collision candidate always differs from the original page
filename: removing the `.txt` occurrences shortens by a multiple of four
while the appended `_1.txt` adds six characters. -/
theorem nextPageCandidate_ne (k : String) : nextPageCandidate k 1 ≠ k := by
  intro h
  obtain ⟨n, hn⟩ := listReplace_txt_length k.data
  have hlen := congrArg String.length h
  simp only [nextPageCandidate, String.length_append] at hlen
  have e1 : (strReplace k ".txt" "").length
      = (listReplace ['.', 't', 'x', 't'] [] k.data).length := rfl
  have e2 : ("_" : String).length = 1 := rfl
  have e3 : (Nat.repr 1).length = 1 := rfl
  have e4 : (".txt" : String).length = 4 := rfl
  have e5 : k.length = k.data.length := rfl
  omega

/-- The page filename derivation always produces a `.txt` name. -/
theorem webpageFilename_split (cfg : ScraperCfg) (u : Url) :
    ∃ x, webpageFilename cfg u = x ++ ".txt" := ⟨_, rfl⟩

/-- The collision candidate is itself a `.txt` name. -/
theorem nextPageCandidate_split (k : String) (c : Nat) :
    ∃ x, nextPageCandidate k c = x ++ ".txt" := ⟨_, rfl⟩

/-- The store produced by a failure-free page save on a fresh URL: the
sidecar and the primary object are pushed onto the store under the
collision-resolved key, and the sidecar records the page URL as its
source. -/
theorem save_webpage_noFail_shape (cfg : ScraperCfg) (u : Url) (pg : Page)
    (st : Store) (hd : webpage_already_exists cfg u st = false) :
    ∃ c m, (save_webpage cfg (fun _ => false) u pg st).1
        = (ensureUniquePage st (webpageFilename cfg u) ++ ".metadata.json",
            .metadata m)
          :: (ensureUniquePage st (webpageFilename cfg u), .content c "text/plain")
          :: st
      ∧ m.source = u.toRaw := by
  unfold save_webpage
  rw [if_neg (by simp [hd])]
  dsimp only
  simp only [upload_to_s3, Bool.false_eq_true, if_false]
  exact ⟨_, _, rfl, rfl⟩

/-- Two-iteration unfolding of the page collision loop: when the original
name is taken and its first counter candidate is free, the loop returns the
first candidate. -/
theorem ensureUniquePageGo_two (st : Store) (orig : String) (c fuel : Nat)
    (h1 : s3_file_exists st orig = true)
    (h2 : s3_file_exists st (nextPageCandidate orig c) = false) :
    ensureUniquePageGo st orig (fuel + 2) orig c = nextPageCandidate orig c := by
  show (if s3_file_exists st orig = true then
      ensureUniquePageGo st orig (fuel + 1) (nextPageCandidate orig c) (c + 1)
    else orig) = nextPageCandidate orig c
  rw [h1, if_pos rfl]
  show (if s3_file_exists st (nextPageCandidate orig c) = true then
      ensureUniquePageGo st orig fuel (nextPageCandidate orig (c + 1)) (c + 1 + 1)
    else nextPageCandidate orig c) = nextPageCandidate orig c
  rw [h2]
  simp

/-! ## Claim theorems -/

/-- C8 counterexample: the claim says sanitization STRIPS the reserved
characters, but the source replaces each with an underscore — on the input
`a/b` the code yields `a_b` while the claimed pipeline yields `ab`. -/
theorem c8_sanitize_counterexample :
    sanitize_filename "a/b" ≠ sanitizeSpecClaimed "a/b" := by decide

/-- C8 (amended): for every input string, `sanitize_filename` REPLACES each
of the characters in the reserved class with an underscore (rather than
deleting them), trims leading and trailing dots and spaces, and caps the
result at 200 characters; consequently the output never exceeds 200
characters and contains no reserved character. -/
theorem c8_sanitize_amended :
    (∀ s : String, sanitize_filename s = sanitizeSpecAmended s)
    ∧ (∀ s : String, (sanitize_filename s).length ≤ 200)
    ∧ ∀ s : String, ∀ c ∈ (sanitize_filename s).data, c ∉ bannedChars := by
  refine ⟨fun s => rfl, fun s => ?_, fun s c hc => ?_⟩
  · show ((pyStrip isDotSpace _).take 200).length ≤ 200
    exact List.length_take_le _ _
  · have hc' : c ∈ (s.data.map fun a => if a ∈ bannedChars then '_' else a).take 200
        ∨ c ∈ pyStrip isDotSpace (s.data.map fun a => if a ∈ bannedChars then '_' else a) := by
      right
      exact (List.take_sublist _ _).mem hc
    have hmem : c ∈ s.data.map fun a => if a ∈ bannedChars then '_' else a := by
      rcases hc' with h | h
      · exact (List.take_sublist _ _).mem h
      · exact mem_of_mem_pyStrip h
    obtain ⟨a, _, ha⟩ := List.mem_map.mp hmem
    by_cases hb : a ∈ bannedChars
    · rw [if_pos hb] at ha
      rw [← ha]
      decide
    · rw [if_neg hb] at ha
      exact ha ▸ hb

/-- C8 witness: on the concrete input `a/b` the amended pipeline agrees
with the source and the produced underscore is not a reserved character. -/
theorem c8_sanitize_witness :
    sanitize_filename "a/b" = sanitizeSpecAmended "a/b" ∧ '_' ∉ bannedChars :=
  ⟨c8_sanitize_amended.1 "a/b", c8_sanitize_amended.2.2 "a/b" '_' (by decide)⟩

/-- C10: any URL whose lower-cased raw form contains one of the substrings
`mailto:`, `tel:`, `javascript:`, `#`, `void(0)`, `data:` anywhere is
rejected by `is_valid_url` under every configuration, and consequently no
URL carrying such a substring ever enters the link set produced by
`find_links_and_files`. -/
theorem c10_token_rejection (cfg : ScraperCfg) :
    (∀ u : Url, hasExcludedToken u = true → is_valid_url cfg u = false)
    ∧ ∀ (pg : Page) (base : Url), ∀ l ∈ (find_links_and_files cfg pg base).1,
        hasExcludedToken l = false := by
  have hrej : ∀ u : Url, hasExcludedToken u = true → is_valid_url cfg u = false := by
    intro u h
    cases hv : is_valid_url cfg u with
    | false => rfl
    | true => rw [token_free_of_valid cfg u hv] at h; cases h
  refine ⟨hrej, fun pg base l hl => ?_⟩
  unfold find_links_and_files at hl
  simp only at hl
  have hl' := List.mem_append.mp (mem_of_mem_dedupUrls hl)
  rcases hl' with h | h
  · have hp := (List.mem_filter.mp h).2
    simp only [Bool.and_eq_true] at hp
    exact token_free_of_valid cfg l hp.1.2
  · have hp := (List.mem_filter.mp h).2
    exact token_free_of_valid cfg l hp

/-- C10 witness: the in-scope page URL `https://www.example.org/page#section`
carries a fragment and is rejected by the classifier. -/
theorem c10_token_rejection_witness :
    is_valid_url exCfg ⟨"https", "www.example.org", "/page#section", "", ""⟩ = false :=
  (c10_token_rejection exCfg).1 _ (by decide)

/-- C1: each dedup oracle answers true only when both the primary object
and its `.metadata.json` sidecar exist in the store AND the sidecar decodes
to metadata whose recorded URL field equals the candidate URL (`source` for
pages; `file_url` or `source` for files), so a same-named object stored
from a different origin URL never produces a skip. -/
theorem c1_dedup_oracle (cfg : ScraperCfg) (u : Url) (st : Store)
    (filename : String) :
    (webpage_already_exists cfg u st = true →
      s3_file_exists st (webpageFilename cfg u) = true
      ∧ ∃ m : Metadata,
          lookupStore st (webpageFilename cfg u ++ ".metadata.json")
            = some (.metadata m)
          ∧ m.source = u.toRaw)
    ∧ (file_already_exists u filename st = true →
      s3_file_exists st (get_s3_filename u filename) = true
      ∧ ∃ m : Metadata,
          lookupStore st (get_s3_filename u filename ++ ".metadata.json")
            = some (.metadata m)
          ∧ (m.file_url = u.toRaw ∨ m.source = u.toRaw)) := by
  constructor
  · intro h
    unfold webpage_already_exists at h
    dsimp only at h
    split_ifs at h with hex
    · simp only [Bool.and_eq_true] at hex
      refine ⟨hex.1, ?_⟩
      cases hm : lookupStore st (webpageFilename cfg u ++ ".metadata.json") with
      | none => rw [hm] at h; cases h
      | some v =>
        cases v with
        | content b ct => rw [hm] at h; cases h
        | metadata m =>
          rw [hm] at h
          exact ⟨m, rfl, beq_iff_eq.mp h⟩
  · intro h
    unfold file_already_exists at h
    dsimp only at h
    split_ifs at h with hex
    · simp only [Bool.and_eq_true] at hex
      refine ⟨hex.1, ?_⟩
      cases hm : lookupStore st (get_s3_filename u filename ++ ".metadata.json") with
      | none => rw [hm] at h; cases h
      | some v =>
        cases v with
        | content b ct => rw [hm] at h; cases h
        | metadata m =>
          rw [hm] at h
          simp only [Bool.or_eq_true] at h
          rcases h with h1 | h2
          · exact ⟨m, rfl, Or.inl (beq_iff_eq.mp h1)⟩
          · exact ⟨m, rfl, Or.inr (beq_iff_eq.mp h2)⟩

/-- C1 witness: a concrete store holding the scenario page and a matching
sidecar makes the page oracle answer true, and the theorem recovers the
stored metadata with the matching source. -/
theorem c1_dedup_oracle_witness :
    s3_file_exists c1Store (webpageFilename exCfg rootUrl) = true
    ∧ ∃ m : Metadata,
        lookupStore c1Store (webpageFilename exCfg rootUrl ++ ".metadata.json")
          = some (.metadata m)
        ∧ m.source = rootUrl.toRaw :=
  (c1_dedup_oracle exCfg rootUrl c1Store "x").1 (by decide)

/-- C6: every per-URL failure is isolated — a URL whose fetch or parse
fails contributes empty link and file sets through `process_url` and the
run continues; the invoker receives a success-kind result carrying the
summary counts whenever the required inputs are present, and an error-kind
400 result exactly when a required input is missing. -/
theorem c6_failure_isolation (feed : String → Bool) (hash : String → String)
    (today : String) (site : Site) (fuel : Nat) (st0 : Store) :
    (∀ (cfg : ScraperCfg) (u : Url) (st : Store), site.pages u = none →
      process_url cfg site u st = (st, [], []))
    ∧ (∀ ev : Event, ev.base_url = none ∨ ev.s3_bucket = none →
        (lambda_handler feed hash today site fuel st0 ev).statusCode = 400)
    ∧ ∀ (ev : Event) (b k : String), ev.base_url = some b → ev.s3_bucket = some k →
        b ≠ "" → k ≠ "" →
        (lambda_handler feed hash today site fuel st0 ev).statusCode = 200
        ∧ (lambda_handler feed hash today site fuel st0 ev).pages_crawled.isSome = true
        ∧ (lambda_handler feed hash today site fuel st0 ev).files_downloaded.isSome = true := by
  refine ⟨fun cfg u st h => ?_, fun ev h => ?_, fun ev b k hb hk hbne hkne => ?_⟩
  · simp [process_url, h]
  · rcases h with h | h
    · simp [lambda_handler, h]
    · cases hb : ev.base_url with
      | none => simp [lambda_handler, hb]
      | some b => simp [lambda_handler, hb, h]
  · have hb' : (b == "") = false := beq_eq_false_iff_ne.mpr hbne
    have hk' : (k == "") = false := beq_eq_false_iff_ne.mpr hkne
    simp [lambda_handler, hb, hk, hb', hk']

/-- C6 witness: the static-site invocation returns a 200 result, and a
concrete failed-fetch URL yields empty link and file sets. -/
theorem c6_failure_isolation_witness :
    (lambda_handler (fun _ => false) (fun _ => "abcd1234") "2026-10-12" c3Site 10 []
        c3ev).statusCode = 200
    ∧ process_url exCfg c3Site aUrl [] = ([], [], []) :=
  ⟨((c6_failure_isolation (fun _ => false) (fun _ => "abcd1234") "2026-10-12" c3Site
      10 []).2.2 c3ev _ _ rfl rfl (by decide) (by decide)).1,
   (c6_failure_isolation (fun _ => false) (fun _ => "abcd1234") "2026-10-12" c3Site
      10 []).1 exCfg aUrl [] (by decide)⟩

/-- C7 counterexample: with a store write failure hitting exactly the
sidecar key, a completed page save leaves the primary object in the store
without its `.metadata.json` sidecar, refuting the claim that the pair is
always written atomically even when one write fails. -/
theorem c7_pair_counterexample :
    s3_file_exists (save_webpage exCfg c7fail rootUrl c3Page []).1
        "main_index.txt" = true
    ∧ s3_file_exists (save_webpage exCfg c7fail rootUrl c3Page []).1
        "main_index.txt.metadata.json" = false := by decide

/-- C7 (amended): the sidecar write is attempted only after the primary
write succeeds — a failed primary write (page save or file download, and
likewise a failed fetch) leaves the store unchanged, and when both writes
succeed the primary and its sidecar are both present; but a failed sidecar
write after a successful primary write leaves the primary object without
its sidecar, as the counterexample shows. -/
theorem c7_pair_writes (cfg : ScraperCfg) (fail : String → Bool) (u src : Url)
    (pg : Page) (st : Store) (dl : List String) (r : FileResp) :
    (fail (ensureUniquePage st (webpageFilename cfg u)) = true →
      (save_webpage cfg fail u pg st).1 = st)
    ∧ (webpage_already_exists cfg u st = false →
       fail (ensureUniquePage st (webpageFilename cfg u)) = false →
       fail (ensureUniquePage st (webpageFilename cfg u) ++ ".metadata.json") = false →
       s3_file_exists (save_webpage cfg fail u pg st).1
           (ensureUniquePage st (webpageFilename cfg u)) = true
       ∧ s3_file_exists (save_webpage cfg fail u pg st).1
           (ensureUniquePage st (webpageFilename cfg u) ++ ".metadata.json") = true)
    ∧ (download_file cfg fail u src none st dl).1 = st
    ∧ (file_already_exists u (sanitize_filename (downloadFilename cfg u r)) st = false →
       fail (get_s3_filename u
           (ensureUniqueFile u st (sanitize_filename (downloadFilename cfg u r)))) = true →
       (download_file cfg fail u src (some r) st dl).1 = st) := by
  refine ⟨fun hf => ?_, fun hd hf1 hf2 => ?_, rfl, fun hd hf => ?_⟩
  · unfold save_webpage
    split_ifs
    · rfl
    · dsimp only
      simp [upload_to_s3, hf]
  · unfold save_webpage
    rw [if_neg (by simp [hd])]
    dsimp only
    have hne : (ensureUniquePage st (webpageFilename cfg u) ++ ".metadata.json"
        == ensureUniquePage st (webpageFilename cfg u)) = false :=
      beq_eq_false_iff_ne.mpr (metadata_key_ne _)
    simp [upload_to_s3, hf1, hf2, s3_file_exists, lookupStore, hne]
  · unfold download_file
    dsimp only
    rw [if_neg (by simp [hd])]
    simp [upload_to_s3, hf]

/-- C7 witness: concrete instances of the amended clauses — a failing
primary write leaves the empty store empty for both the page and file
paths, and a fully successful page save stores both members of the pair. -/
theorem c7_pair_writes_witness :
    (save_webpage exCfg (fun _ => true) rootUrl c3Page []).1 = []
    ∧ (s3_file_exists (save_webpage exCfg (fun _ => false) rootUrl c3Page []).1
        "main_index.txt" = true
      ∧ s3_file_exists (save_webpage exCfg (fun _ => false) rootUrl c3Page []).1
        ("main_index.txt" ++ ".metadata.json") = true)
    ∧ (download_file exCfg (fun _ => true) pdfUrl rootUrl (some fResp) [] []).1 = [] := by
  refine ⟨?_, ?_, ?_⟩
  · exact (c7_pair_writes exCfg (fun _ => true) rootUrl rootUrl c3Page [] [] fResp).1 rfl
  · exact (c7_pair_writes exCfg (fun _ => false) rootUrl rootUrl c3Page [] [] fResp).2.1
      (by decide) rfl rfl
  · exact (c7_pair_writes exCfg (fun _ => true) pdfUrl rootUrl c3Page [] [] fResp).2.2.2
      (by decide) rfl

/-- C3 counterexample: on the concrete one-page static site, the second
run against the store produced by the first run writes nothing new, yet the
pagesCrawled value the handler reports for the second run is 1 (the number
of URLs visited again), not 0 — refuting the claim that the second run
reports only newly-discovered pages. -/
theorem c3_idempotence_counterexample :
    ¬ ((crawl_website exCfg c3Site 10 c3run1.store).store = c3run1.store
       ∧ (lambda_handler (fun _ => false) (fun _ => "abcd1234") "2026-10-12" c3Site 10
            c3run1.store c3ev).pages_crawled = some 0) := by decide

/-- C3 (amended): when the dedup oracle matches every page and file of the
unchanged site against the store left by the first run (as it does for a
static site whose derived keys do not collide), the second run writes
nothing — its final store equals its initial store; however, crawling is
store-independent, so the second run visits exactly the URLs the first run
visited, and the reported pagesCrawled equals that visited count (the same
value as run one), not the number of newly-discovered pages. -/
theorem c3_idempotence (cfg : ScraperCfg) (site : Site) (fuel : Nat) (st1 : Store)
    (hp : ∀ u pg, site.pages u = some pg → webpage_already_exists cfg u st1 = true)
    (hf : ∀ u r, site.files u = some r →
      file_already_exists u (sanitize_filename (downloadFilename cfg u r)) st1 = true) :
    (crawl_website cfg site fuel st1).store = st1
    ∧ ∀ st0 : Store,
        (crawl_website cfg site fuel st0).visited
          = (crawl_website cfg site fuel st1).visited
        ∧ (crawl_website cfg site fuel st0).visited.length
          = (crawl_website cfg site fuel st1).visited.length := by
  constructor
  · unfold crawl_website
    refine crawlLoop_preserves cfg site (fun st => st.store = st1)
      (crawlStep_store_fixed cfg site st1 hp hf) fuel _ ?_
    rfl
  · intro st0
    have hsame : SameCrawl (initialCrawlSt cfg site st0) (initialCrawlSt cfg site st1) :=
      ⟨rfl, rfl, rfl, rfl, rfl, rfl, rfl⟩
    have := (crawlLoop_same cfg site fuel hsame).2.1
    exact ⟨this, congrArg List.length this⟩

/-- C3 witness: for the static one-page site, the second run leaves the
first run's store unchanged while visiting exactly the pages of the first
run. -/
theorem c3_idempotence_witness :
    (crawl_website exCfg c3Site 10 c3run1.store).store = c3run1.store
    ∧ (crawl_website exCfg c3Site 10 []).visited
        = (crawl_website exCfg c3Site 10 c3run1.store).visited := by
  have h := c3_idempotence exCfg c3Site 10 c3run1.store ?_ ?_
  · exact ⟨h.1, (h.2 []).1⟩
  · intro u pg hpg
    by_cases hu : u = rootUrl
    · subst hu
      decide
    · exfalso
      simp only [c3Site, if_neg hu] at hpg
      cases hpg
  · intro u r hr
    simp only [c3Site] at hr
    cases hr

/-- C2: within one crawl run no URL is dispatched to the page processor
twice — the dispatched URL list over all batches is duplicate-free, the
visited-set cardinality never exceeds the number of frontier insertions,
and the visited set only grows across every crawl step (the check-and-insert
of `crawl_website` happens atomically at pop time in the model step). -/
theorem c2_unique_dispatch (cfg : ScraperCfg) (site : Site) (fuel : Nat)
    (st0 : Store) :
    (dispatchedRaw (crawl_website cfg site fuel st0)).Nodup
    ∧ (crawl_website cfg site fuel st0).visited.length
        ≤ (crawl_website cfg site fuel st0).insertions
    ∧ ∀ st : CrawlSt, ∀ x ∈ st.visited, x ∈ (crawlStep cfg site st).visited := by
  have hinv := crawlLoop_preserves cfg site CrawlInv (crawlStep_inv cfg site) fuel
    (initialCrawlSt cfg site st0) (initial_inv cfg site st0).1
  refine ⟨hinv.1, ?_, crawlStep_visited_mono cfg site⟩
  unfold crawl_website
  have := hinv.2.2.2
  omega

/-- C2 witness: the static-site run dispatches without duplicates within
its insertion budget, and a concrete visited URL survives a crawl step. -/
theorem c2_unique_dispatch_witness :
    (dispatchedRaw (crawl_website exCfg c3Site 10 [])).Nodup
    ∧ (crawl_website exCfg c3Site 10 []).visited.length
        ≤ (crawl_website exCfg c3Site 10 []).insertions
    ∧ "https://www.example.org/" ∈ (crawlStep exCfg c3Site c2St).visited :=
  ⟨(c2_unique_dispatch exCfg c3Site 10 []).1,
   (c2_unique_dispatch exCfg c3Site 10 []).2.1,
   (c2_unique_dispatch exCfg c3Site 10 []).2.2 c2St _ (by decide)⟩

/-- C5 counterexample: on the concrete four-page site with two workers, the
depth-1 URL `/c` and the depth-2 URL `/d` are dispatched in the same batch,
so a URL discovered at depth 2 is processed before every URL enqueued at
depth 1 has finished its batch — strict breadth-first level order fails. -/
theorem c5_strict_level_counterexample : ¬ StrictLevelOrder exCfg c5Site 10 [] := by
  unfold StrictLevelOrder
  decide

/-- C5 (amended): the frontier guarantee the code provides is batch delay,
not strict level order — an entry discovered while batch N was running
carries discovery index N + 1 and is only ever dispatched in a batch of
index at least N + 1 (URLs discovered during batch N are processed starting
with batch N + 1), while a depth-d URL may share a batch with depth-(d-1)
URLs when a level is larger than the worker count, as the counterexample
shows. -/
theorem c5_batch_delay (cfg : ScraperCfg) (site : Site) (fuel : Nat) (st0 : Store) :
    ∀ p ∈ (crawl_website cfg site fuel st0).batches.enum, ∀ e ∈ p.2, e.disc ≤ p.1 :=
  (crawlLoop_preserves cfg site DiscInv (crawlStep_disc cfg site) fuel
    (initialCrawlSt cfg site st0) (initial_inv cfg site st0).2).2

/-- C5 witness: in the concrete run, the entry for `/d` (discovered during
batch 2, discovery index 2) sits in the batch of index 2. -/
theorem c5_batch_delay_witness : (⟨dUrl, 2, 2⟩ : QEntry).disc ≤ 2 :=
  c5_batch_delay exCfg c5Site 10 []
    (2, [⟨cUrl, 1, 1⟩, ⟨dUrl, 2, 2⟩]) (by decide) _ (by decide)

/-- C4: two distinct source URLs deriving the same base page filename,
saved one after the other into an empty store, leave two distinct objects
in the store — the second stored under the base name with the counter `_1`
inserted before the `.txt` extension — and the object stored first is never
overwritten by the second save; the concrete file-download pair shows the
same behaviour on the file path, where each object keeps its own sidecar
provenance. -/
theorem c4_key_collision (cfg : ScraperCfg) (u1 u2 : Url) (pg1 pg2 : Page)
    (hne : u1.toRaw ≠ u2.toRaw)
    (hcol : webpageFilename cfg u1 = webpageFilename cfg u2) :
    nextPageCandidate (webpageFilename cfg u1) 1 ≠ webpageFilename cfg u1
    ∧ lookupStore
        (save_webpage cfg (fun _ => false) u2 pg2
          (save_webpage cfg (fun _ => false) u1 pg1 []).1).1
        (webpageFilename cfg u1)
      = lookupStore (save_webpage cfg (fun _ => false) u1 pg1 []).1
          (webpageFilename cfg u1)
    ∧ (∃ c, lookupStore (save_webpage cfg (fun _ => false) u1 pg1 []).1
          (webpageFilename cfg u1) = some (.content c "text/plain"))
    ∧ (∃ c, lookupStore
          (save_webpage cfg (fun _ => false) u2 pg2
            (save_webpage cfg (fun _ => false) u1 pg1 []).1).1
          (nextPageCandidate (webpageFilename cfg u1) 1)
        = some (.content c "text/plain"))
    ∧ (metaFileUrlAt (download_file exCfg (fun _ => false) f2Url rootUrl (some fResp)
          (download_file exCfg (fun _ => false) f1Url rootUrl (some fResp) [] []).1
          (download_file exCfg (fun _ => false) f1Url rootUrl (some fResp) [] []).2.1).1
          "main_brochure.pdf.metadata.json" = some f1Url.toRaw
      ∧ metaFileUrlAt (download_file exCfg (fun _ => false) f2Url rootUrl (some fResp)
          (download_file exCfg (fun _ => false) f1Url rootUrl (some fResp) [] []).1
          (download_file exCfg (fun _ => false) f1Url rootUrl (some fResp) [] []).2.1).1
          "main_brochure_1.pdf.metadata.json" = some f2Url.toRaw
      ∧ lookupStore (download_file exCfg (fun _ => false) f2Url rootUrl (some fResp)
          (download_file exCfg (fun _ => false) f1Url rootUrl (some fResp) [] []).1
          (download_file exCfg (fun _ => false) f1Url rootUrl (some fResp) [] []).2.1).1
          "main_brochure_1.pdf"
        = some (.content "BYTES" "application/pdf")) := by
  have hd1 : webpage_already_exists cfg u1 [] = false := rfl
  obtain ⟨c1, m1, hst1, hm1⟩ := save_webpage_noFail_shape cfg u1 pg1 [] hd1
  rw [show ensureUniquePage [] (webpageFilename cfg u1) = webpageFilename cfg u1
    from rfl] at hst1
  obtain ⟨x1, hx1⟩ := webpageFilename_split cfg u1
  obtain ⟨x2, hx2⟩ := nextPageCandidate_split (webpageFilename cfg u1) 1
  have hk2k1 : nextPageCandidate (webpageFilename cfg u1) 1 ≠ webpageFilename cfg u1 :=
    nextPageCandidate_ne _
  have hmeta_ne_k2 : webpageFilename cfg u1 ++ ".metadata.json"
      ≠ nextPageCandidate (webpageFilename cfg u1) 1 := by
    rw [hx2]
    exact Ne.symm (append_txt_ne_append_json x2 _)
  have hk2meta_ne_k1 : nextPageCandidate (webpageFilename cfg u1) 1 ++ ".metadata.json"
      ≠ webpageFilename cfg u1 := by
    rw [hx1]
    exact Ne.symm (append_txt_ne_append_json x1 _)
  have b1 : (webpageFilename cfg u1 ++ ".metadata.json" == webpageFilename cfg u1)
      = false := beq_eq_false_iff_ne.mpr (metadata_key_ne _)
  have b2 : (webpageFilename cfg u1 ++ ".metadata.json"
      == nextPageCandidate (webpageFilename cfg u1) 1) = false :=
    beq_eq_false_iff_ne.mpr hmeta_ne_k2
  have b3 : (webpageFilename cfg u1 == nextPageCandidate (webpageFilename cfg u1) 1)
      = false := beq_eq_false_iff_ne.mpr (Ne.symm hk2k1)
  have b4 : (nextPageCandidate (webpageFilename cfg u1) 1 ++ ".metadata.json"
      == webpageFilename cfg u1) = false := beq_eq_false_iff_ne.mpr hk2meta_ne_k1
  have b5 : (nextPageCandidate (webpageFilename cfg u1) 1 == webpageFilename cfg u1)
      = false := beq_eq_false_iff_ne.mpr hk2k1
  have b6 : (nextPageCandidate (webpageFilename cfg u1) 1 ++ ".metadata.json"
      == nextPageCandidate (webpageFilename cfg u1) 1) = false :=
    beq_eq_false_iff_ne.mpr (metadata_key_ne _)
  have hlook1 : lookupStore (save_webpage cfg (fun _ => false) u1 pg1 []).1
      (webpageFilename cfg u1) = some (.content c1 "text/plain") := by
    rw [hst1]
    simp [lookupStore, b1]
  have hd2 : webpage_already_exists cfg u2
      (save_webpage cfg (fun _ => false) u1 pg1 []).1 = false := by
    rw [hst1]
    unfold webpage_already_exists
    dsimp only
    rw [← hcol]
    have hsrc : (m1.source == u2.toRaw) = false := by
      rw [hm1]
      exact beq_eq_false_iff_ne.mpr hne
    simp [s3_file_exists, lookupStore, b1, hsrc]
  have hens : ensureUniquePage (save_webpage cfg (fun _ => false) u1 pg1 []).1
      (webpageFilename cfg u2) = nextPageCandidate (webpageFilename cfg u2) 1 := by
    rw [hst1, ← hcol]
    refine ensureUniquePageGo_two _ _ 1 1 ?_ ?_
    · simp [s3_file_exists, lookupStore, b1]
    · simp [s3_file_exists, lookupStore, b2, b3]
  obtain ⟨c2, m2, hst2, hm2⟩ := save_webpage_noFail_shape cfg u2 pg2
    (save_webpage cfg (fun _ => false) u1 pg1 []).1 hd2
  rw [hens, ← hcol] at hst2
  refine ⟨hk2k1, ?_, ⟨c1, hlook1⟩, ⟨c2, ?_⟩, by decide⟩
  · rw [hst2]
    simp [lookupStore, b4, b5]
  · rw [hst2]
    simp [lookupStore, b6]

/-- C4 witness: the URLs `https://example.org/a/b` and
`https://example.org/a_b` derive the same page filename, and the collision
candidate differs from it. -/
theorem c4_key_collision_witness :
    nextPageCandidate (webpageFilename exCfg w1Url) 1 ≠ webpageFilename exCfg w1Url :=
  (c4_key_collision exCfg w1Url w2Url (mkPage []) (mkPage [])
    (by decide) (by decide)).1

/-- C9: a page linking `/brochure.pdf` yields that absolute URL in the
extracted file set, and after the run the store holds the object
`main_brochure.pdf` together with its sidecar
`main_brochure.pdf.metadata.json` whose `file_url` attribute equals the
absolute PDF URL. -/
theorem c9_brochure_scenario :
    pdfUrl ∈ (find_links_and_files exCfg c9Page rootUrl).2
    ∧ lookupStore (crawl_website exCfg c9Site 10 []).store "main_brochure.pdf"
        = some (.content "PDFBYTES" "application/pdf")
    ∧ metaFileUrlAt (crawl_website exCfg c9Site 10 []).store
        "main_brochure.pdf.metadata.json"
        = some "https://www.example.org/brochure.pdf" := by decide

end Scraper
